import Mathlib

/-!
Verification of the repository-graph resolution and dataset-location engine
of `lsst/daf_persistence` (`python/lsst/daf/persistence/butler.py`), via a
shallow embedding of its algorithms.

Python strings are modelled as `List Char`; Python dicts preserving insertion
order as association lists; Python object identity as natural-number node ids;
exceptions as `Except`.
-/

namespace DafButler

/-- Python strings, modelled as lists of characters. -/
abbrev Str := List Char

/-! ## Python string primitives used by the alias machinery -/

/-- Scanner for `str.replace` with a nonempty pattern `p :: pat`:
replaces all non-overlapping occurrences, left to right. -/
def pyReplaceGo (p : Char) (pat rep : Str) : Str → Str
  | [] => []
  | c :: rest =>
    if (p :: pat).isPrefixOf (c :: rest) then
      rep ++ pyReplaceGo p pat rep (rest.drop pat.length)
    else
      c :: pyReplaceGo p pat rep rest
termination_by s => s.length
decreasing_by
  · simp only [List.length_drop, List.length_cons]; omega
  · simp only [List.length_cons]; omega

/-- Python `s.replace(pat, rep)`: all non-overlapping occurrences of `pat`
in `s` are replaced by `rep` (for an empty pattern, `rep` is interleaved
between every character, as in Python). -/
def pyReplace (pat rep s : Str) : Str :=
  match pat with
  | [] => rep ++ List.foldr (fun c acc => c :: (rep ++ acc)) [] s
  | p :: ps => pyReplaceGo p ps rep s

/-- Python `s.rfind(c)`: index of the last occurrence of `c` in `s`,
or `-1` if absent. -/
def pyRfind (c : Char) : Str → Int
  | [] => -1
  | a :: rest =>
    let r := pyRfind c rest
    if r ≥ 0 then r + 1 else if a = c then 0 else -1

/-- Python `d[k] = v` on an insertion-ordered dict modelled as an
association list: update in place if the key exists, else append. -/
def pyDictSet (d : List (Str × Str)) (k v : Str) : List (Str × Str) :=
  if d.any (fun p => p.1 == k) then
    d.map (fun p => if p.1 == k then (k, v) else p)
  else d ++ [(k, v)]

lemma pyRfind_ge_neg_one (c : Char) (s : Str) : pyRfind c s ≥ -1 := by
  induction s with
  | nil => simp [pyRfind]
  | cons a rest ih =>
    simp only [pyRfind]
    split
    · omega
    · split <;> omega

lemma pyRfind_eq_neg_one_iff (c : Char) (s : Str) :
    pyRfind c s = -1 ↔ c ∉ s := by
  induction s with
  | nil => simp [pyRfind]
  | cons a rest ih =>
    have hlb := pyRfind_ge_neg_one c rest
    simp only [pyRfind, List.mem_cons]
    by_cases hr : pyRfind c rest ≥ 0
    · rw [if_pos hr]
      have hmem : c ∈ rest := by
        by_contra hn
        rw [← ih] at hn
        omega
      constructor
      · intro h; omega
      · intro h; exact absurd (Or.inr hmem) h
    · rw [if_neg hr]
      have hnmem : c ∉ rest := by
        by_contra hn
        have h2 : ¬ pyRfind c rest = -1 := fun he => (ih.mp he) hn
        omega
      by_cases hac : a = c
      · rw [if_pos hac]
        subst hac
        constructor
        · intro h; exact absurd h (by decide)
        · intro h; exact absurd (Or.inl rfl) h
      · rw [if_neg hac]
        constructor
        · intro _
          rintro (h | h)
          · exact hac h.symm
          · exact hnmem h
        · intro _; rfl

lemma pyRfind_pos_iff (c : Char) (s : Str) :
    pyRfind c s > 0 ↔ c ∈ s.drop 1 := by
  cases s with
  | nil => simp [pyRfind]
  | cons a rest =>
    have hlb := pyRfind_ge_neg_one c rest
    simp only [pyRfind, List.drop_one, List.tail_cons]
    by_cases hr : pyRfind c rest ≥ 0
    · rw [if_pos hr]
      have hmem : c ∈ rest := by
        by_contra hn
        rw [← pyRfind_eq_neg_one_iff] at hn
        omega
      constructor
      · intro _; exact hmem
      · intro _; omega
    · rw [if_neg hr]
      have hnmem : c ∉ rest := by
        by_contra hn
        have h2 : ¬ pyRfind c rest = -1 :=
          fun he => ((pyRfind_eq_neg_one_iff c rest).mp he) hn
        omega
      by_cases hac : a = c
      · rw [if_pos hac]
        constructor
        · intro h; omega
        · intro h; exact absurd h hnmem
      · rw [if_neg hac]
        constructor
        · intro h; omega
        · intro h; exact absurd h hnmem

/-! ## Alias table (`Butler.defineAlias`, `Butler._resolveDatasetTypeAlias`) -/

/-- The `datasetTypeAliasDict`: token (starting with `@`) to target substring. -/
abbrev AliasDict := List (Str × Str)

/-- The validation body of `Butler.defineAlias` after the `@` normalization:
rejects a target containing `@` (`datasetType.count('@') != 0`), rejects a
token overlapping an existing token by prefix in either direction
(`key.startswith(alias) or alias.startswith(key)`), otherwise stores the
entry in the dict. -/
def defineAliasChecks (d : AliasDict) (aliasT datasetType : Str) :
    Except String AliasDict :=
  if '@' ∈ datasetType then
    .error "Badly formatted type string"
  else if d.any (fun p => aliasT.isPrefixOf p.1 || p.1.isPrefixOf aliasT) then
    .error "Alias overlaps with existing alias"
  else
    .ok (pyDictSet d aliasT datasetType)

/-- `Butler.defineAlias`: an `@` is prepended when absent
(`rfind('@') == -1`); an `@` anywhere past the first character
(`rfind('@') > 0`) is fatal; then the checks above run. -/
def defineAlias (d : AliasDict) (aliasT datasetType : Str) :
    Except String AliasDict :=
  let atLoc := pyRfind '@' aliasT
  if atLoc = -1 then defineAliasChecks d ('@' :: aliasT) datasetType
  else if atLoc > 0 then .error "Badly formatted alias string"
  else defineAliasChecks d aliasT datasetType

/-- The replacement loop of `Butler._resolveDatasetTypeAlias`: walk the alias
table in order, breaking out as soon as no `@` remains
(`datasetType.find('@') == -1`). -/
def resolveLoop : AliasDict → Str → Str
  | [], dt => dt
  | (k, v) :: rest, dt =>
    if '@' ∈ dt then resolveLoop rest (pyReplace k v dt) else dt

/-- `Butler._resolveDatasetTypeAlias`: run the replacement loop; a dataset
type still containing `@` afterwards is a fatal `RuntimeError`. -/
def resolveDatasetTypeAlias (d : AliasDict) (datasetType : Str) :
    Except Str Str :=
  let dt := resolveLoop d datasetType
  if '@' ∈ dt then .error dt else .ok dt

lemma resolveLoop_of_no_at (d : AliasDict) (dt : Str)
    (h : '@' ∉ dt) : resolveLoop d dt = dt := by
  cases d with
  | nil => rfl
  | cons p rest => cases p with
    | mk k v => simp [resolveLoop, h]

lemma resolveDatasetTypeAlias_ok_no_at (d : AliasDict) (s r : Str)
    (h : resolveDatasetTypeAlias d s = .ok r) : '@' ∉ r := by
  unfold resolveDatasetTypeAlias at h
  by_cases hc : '@' ∈ resolveLoop d s
  · simp [hc] at h
  · simp only [if_neg hc, Except.ok.injEq] at h
    rw [← h]
    exact hc

/-- The normalized token that `defineAlias` stores: `@` is prepended when the
argument contains none. -/
def normAlias (aliasT : Str) : Str :=
  if pyRfind '@' aliasT = -1 then '@' :: aliasT else aliasT

lemma defineAlias_eq_checks (d : AliasDict) (a t : Str)
    (h : ¬ pyRfind '@' a > 0) :
    defineAlias d a t = defineAliasChecks d (normAlias a) t := by
  unfold defineAlias normAlias
  by_cases hrf : pyRfind '@' a = -1
  · rw [if_pos hrf, if_pos hrf]
  · rw [if_neg hrf, if_neg h, if_neg hrf]

/-- **C7.** Registering an alias fails exactly when the token has an `@` past
its first character, the target contains `@`, or the normalized
(`@`-prefixed) token is a prefix of an already-registered token or vice
versa; otherwise the normalized entry is appended to the table and no
existing entry changes. -/
theorem claim7_defineAlias (d : AliasDict) (a t : Str) :
    (pyRfind '@' a > 0 ↔ '@' ∈ a.drop 1)
    ∧ ((∃ e, defineAlias d a t = .error e) ↔
      ('@' ∈ a.drop 1 ∨ '@' ∈ t ∨
        ∃ p ∈ d, ((normAlias a).isPrefixOf p.1 || p.1.isPrefixOf (normAlias a)) = true))
    ∧ ('@' ∉ a.drop 1 → '@' ∉ t →
        (∀ p ∈ d, ((normAlias a).isPrefixOf p.1 || p.1.isPrefixOf (normAlias a)) = false) →
        defineAlias d a t = .ok (d ++ [(normAlias a, t)])) := by
  have hpos := pyRfind_pos_iff '@' a
  refine ⟨hpos, ?_, ?_⟩
  · constructor
    · rintro ⟨e, he⟩
      by_cases hp : pyRfind '@' a > 0
      · left; exact hpos.mp hp
      · rw [defineAlias_eq_checks d a t hp] at he
        unfold defineAliasChecks at he
        by_cases h1 : '@' ∈ t
        · right; left; exact h1
        · rw [if_neg h1] at he
          by_cases h2 : d.any (fun p => (normAlias a).isPrefixOf p.1 ||
              p.1.isPrefixOf (normAlias a)) = true
          · right; right
            exact List.any_eq_true.mp h2
          · rw [if_neg h2] at he
            exact absurd he (by simp)
    · intro hcond
      by_cases hp : pyRfind '@' a > 0
      · refine ⟨"Badly formatted alias string", ?_⟩
        unfold defineAlias
        rw [if_neg (by omega), if_pos hp]
      · rw [defineAlias_eq_checks d a t hp]
        unfold defineAliasChecks
        rcases hcond with h1 | h1 | h1
        · exact absurd (hpos.mpr h1) hp
        · exact ⟨"Badly formatted type string", by rw [if_pos h1]⟩
        · by_cases hc : '@' ∈ t
          · exact ⟨"Badly formatted type string", by rw [if_pos hc]⟩
          · refine ⟨"Alias overlaps with existing alias", ?_⟩
            rw [if_neg hc, if_pos (List.any_eq_true.mpr h1)]
  · intro h0 h1 h2
    rw [defineAlias_eq_checks d a t (fun hp => h0 (hpos.mp hp))]
    unfold defineAliasChecks
    have hany : d.any (fun p => (normAlias a).isPrefixOf p.1 ||
        p.1.isPrefixOf (normAlias a)) = false := by
      by_contra hc
      simp only [Bool.not_eq_false] at hc
      rcases List.any_eq_true.mp hc with ⟨p, hp, hpp⟩
      rw [h2 p hp] at hpp
      exact Bool.false_ne_true hpp
    have hset : pyDictSet d (normAlias a) t = d ++ [(normAlias a, t)] := by
      unfold pyDictSet
      have hnone : d.any (fun p => p.1 == normAlias a) = false := by
        by_contra hc
        simp only [Bool.not_eq_false] at hc
        rcases List.any_eq_true.mp hc with ⟨p, hp, hpe⟩
        have hpeq : p.1 = normAlias a := by simpa using hpe
        have hp2 := h2 p hp
        rw [hpeq] at hp2
        have hrefl : (normAlias a).isPrefixOf (normAlias a) = true :=
          List.isPrefixOf_iff_prefix.mpr (List.prefix_refl _)
        simp [hrefl] at hp2
      simp [hnone]
    rw [if_neg h1, if_neg (by simp [hany] : ¬ (d.any (fun p =>
      (normAlias a).isPrefixOf p.1 || p.1.isPrefixOf (normAlias a)) = true)), hset]

/-- Witness for C7 at concrete inputs: registering `raw` with target
`exposure` in an empty table succeeds and stores `@raw`; registering a token
that extends an existing token fails. -/
theorem claim7_witness :
    defineAlias [] "raw".toList "exposure".toList =
      .ok [("@raw".toList, "exposure".toList)]
    ∧ ∃ e, defineAlias [("@ra".toList, "x".toList)] "raw".toList "exposure".toList
        = .error e := by
  constructor
  · exact (claim7_defineAlias [] "raw".toList "exposure".toList).2.2
      (by decide) (by decide) (by decide)
  · exact (claim7_defineAlias [("@ra".toList, "x".toList)] "raw".toList
      "exposure".toList).2.1.mpr
      (Or.inr (Or.inr ⟨("@ra".toList, "x".toList), by simp, by decide⟩))

/-- **C6.** Alias resolution: an alias-free string resolves to itself
unchanged; resolution is idempotent on resolved strings; a string still
containing `@` after the table is exhausted is a fatal error; and each step
of the loop replaces one registered token by its target throughout the
string. -/
theorem claim6_resolveDatasetTypeAlias (d : AliasDict) (s : Str) :
    ('@' ∉ s → resolveDatasetTypeAlias d s = .ok s)
    ∧ (∀ r, resolveDatasetTypeAlias d s = .ok r →
        resolveDatasetTypeAlias d r = .ok r)
    ∧ ('@' ∈ resolveLoop d s →
        resolveDatasetTypeAlias d s = .error (resolveLoop d s))
    ∧ (∀ k v rest, '@' ∈ s →
        resolveLoop ((k, v) :: rest) s = resolveLoop rest (pyReplace k v s)) := by
  refine ⟨?_, ?_, ?_, ?_⟩
  · intro h
    unfold resolveDatasetTypeAlias
    rw [resolveLoop_of_no_at d s h, if_neg h]
  · intro r hr
    have hno := resolveDatasetTypeAlias_ok_no_at d s r hr
    unfold resolveDatasetTypeAlias
    rw [resolveLoop_of_no_at d r hno, if_neg hno]
  · intro h
    unfold resolveDatasetTypeAlias
    rw [if_pos h]
  · intro k v rest h
    simp [resolveLoop, h]

/-- Witness for C6 at concrete inputs: an alias-free dataset type is returned
unchanged; an unresolvable `@` raises; one loop step rewrites the token. -/
theorem claim6_witness :
    resolveDatasetTypeAlias [("@raw".toList, "exposure".toList)] "calexp".toList
      = .ok "calexp".toList
    ∧ resolveDatasetTypeAlias [] "@x".toList = .error "@x".toList
    ∧ resolveLoop [("@raw".toList, "exposure".toList)] "@raw".toList
      = resolveLoop [] (pyReplace "@raw".toList "exposure".toList "@raw".toList) := by
  refine ⟨?_, ?_, ?_⟩
  · exact (claim6_resolveDatasetTypeAlias [("@raw".toList, "exposure".toList)]
      "calexp".toList).1 (by decide)
  · exact (claim6_resolveDatasetTypeAlias [] "@x".toList).2.2.1 (by decide)
  · exact (claim6_resolveDatasetTypeAlias [("@raw".toList, "exposure".toList)]
      "@raw".toList).2.2.2 "@raw".toList "exposure".toList [] (by decide)

/-! ## Repository configuration records and declarations

`RepositoryCfg` (external class, observed through its use in `butler.py`):
storage root, mapper identity, mapper construction arguments, and an ordered
parent list whose entries are either a root URI or an embedded nested
configuration record.  Identities (roots, mappers, mapper arguments, policies,
tags) are modelled as natural numbers. -/

mutual
inductive RepositoryCfg : Type where
  | mk (root : Nat) (mapper : Option Nat) (mapperArgs : Option Nat)
       (parents : List ParentVal)
inductive ParentVal : Type where
  | byRoot (r : Nat)
  | byCfg (c : RepositoryCfg)
end

mutual
def decEqCfg : (a b : RepositoryCfg) → Decidable (a = b)
  | .mk r1 m1 a1 p1, .mk r2 m2 a2 p2 =>
    if h1 : r1 = r2 then
      if h2 : m1 = m2 then
        if h3 : a1 = a2 then
          match decEqParentList p1 p2 with
          | .isTrue h4 => .isTrue (by rw [h1, h2, h3, h4])
          | .isFalse h4 => .isFalse (fun he => h4 (by injection he))
        else .isFalse (fun he => h3 (by injection he))
      else .isFalse (fun he => h2 (by injection he))
    else .isFalse (fun he => h1 (by injection he))
def decEqParent : (a b : ParentVal) → Decidable (a = b)
  | .byRoot x, .byRoot y =>
    if h : x = y then .isTrue (by rw [h]) else .isFalse (fun he => h (by injection he))
  | .byRoot _, .byCfg _ => .isFalse (fun he => ParentVal.noConfusion he)
  | .byCfg _, .byRoot _ => .isFalse (fun he => ParentVal.noConfusion he)
  | .byCfg c, .byCfg d =>
    match decEqCfg c d with
    | .isTrue h => .isTrue (by rw [h])
    | .isFalse h => .isFalse (fun he => h (by injection he))
def decEqParentList : (a b : List ParentVal) → Decidable (a = b)
  | [], [] => .isTrue rfl
  | [], _ :: _ => .isFalse (by simp)
  | _ :: _, [] => .isFalse (by simp)
  | x :: xs, y :: ys =>
    match decEqParent x y, decEqParentList xs ys with
    | .isTrue h1, .isTrue h2 => .isTrue (by rw [h1, h2])
    | .isFalse h1, _ => .isFalse (fun he => h1 (by injection he))
    | _, .isFalse h2 => .isFalse (fun he => h2 (by injection he))
end

instance : DecidableEq RepositoryCfg := decEqCfg
instance : DecidableEq ParentVal := decEqParent

def RepositoryCfg.root : RepositoryCfg → Nat | .mk r _ _ _ => r
def RepositoryCfg.mapper : RepositoryCfg → Option Nat | .mk _ m _ _ => m
def RepositoryCfg.mapperArgs : RepositoryCfg → Option Nat | .mk _ _ a _ => a
def RepositoryCfg.parents : RepositoryCfg → List ParentVal | .mk _ _ _ p => p

/-- `RepositoryArgs`: a repository declaration — the root/URI where the
configuration lives, the mode string (containing `r` and/or `w`), an optional
mapper identity, optional mapper arguments, an optional policy, and
visibility tags. -/
structure RepositoryArgs where
  cfgRoot : Nat
  mode : Str
  mapper : Option Nat
  mapperArgs : Option Nat
  policy : Option Nat
  tags : List Nat
deriving DecidableEq

/-- The `cfgMatchesArgs` comparison at `butler.py:554-558`: the persisted
configuration disagrees with the declaration when the declaration specifies a
mapper and the persisted mapper differs, when it specifies mapper arguments
and the persisted ones differ, or when it specifies a policy and the
persisted *mapper arguments* differ from it (the third comparison reads
`cfg.mapperArgs != args.policy` in the source). -/
def cfgMatchesArgs (args : RepositoryArgs) (cfg : RepositoryCfg) : Bool :=
  !((args.mapper.isSome && !(cfg.mapper == args.mapper))
    || (args.mapperArgs.isSome && !(cfg.mapperArgs == args.mapperArgs))
    || (args.policy.isSome && !(cfg.mapperArgs == args.policy)))

/-- Modelled from the spec: `RepositoryCfg.makeFromArgs` (the class lives
outside `src/`); "synthesize a new configuration from the declaration":
root, mapper and mapper arguments come from the declaration and the parent
list starts empty. -/
def RepositoryCfg.makeFromArgs (args : RepositoryArgs) : RepositoryCfg :=
  .mk args.cfgRoot args.mapper args.mapperArgs []

/-- Modelled from the spec: `RepositoryCfg.addParents` (the class lives
outside `src/`); step 5 of graph construction "stores this [the effective
parent set] as its configuration's parent list" — the entries are appended
to the (initially empty) parent list of the new configuration. -/
def RepositoryCfg.addParents (c : RepositoryCfg) (ps : List ParentVal) :
    RepositoryCfg :=
  .mk c.root c.mapper c.mapperArgs (c.parents ++ ps)

/-- The origin of a node's configuration (`RepoData.setCfg` accepts exactly
`new`, `existing` and `nested`). -/
inductive Origin : Type where
  | new | existing | nested
deriving DecidableEq

/-- The cfg-related state of a `RepoData` after configuration resolution:
the configuration, its origin, and the root it was loaded from (`None` for a
nested override). -/
structure RepoData where
  cfg : RepositoryCfg
  cfgOrigin : Origin
  cfgRoot : Option Nat
deriving DecidableEq

/-- The body of `Butler._getCfgsForInputsAndOutputs` for one declaration
(`butler.py:540-571`).  `store` models `Storage.getRepositoryCfg` combined
with the Old-Butler fallback `_getOldButlerRepositoryCfg` — the persisted
configuration reachable from a root, if any. -/
def getCfgOne (store : Nat → Option RepositoryCfg) (args : RepositoryArgs) :
    Except String RepoData :=
  match store args.cfgRoot with
  | none =>
    if 'w' ∉ args.mode then
      .error "No cfg found for read-only input repository"
    else
      .ok ⟨RepositoryCfg.makeFromArgs args, .new, some args.cfgRoot⟩
  | some cfg =>
    if 'w' ∈ args.mode then
      if cfgMatchesArgs args cfg = false then
        .error "Args and Cfg must match for writable repositories"
      else
        .ok ⟨cfg, .existing, some args.cfgRoot⟩
    else
      if cfgMatchesArgs args cfg then .ok ⟨cfg, .existing, some args.cfgRoot⟩
      else .ok ⟨cfg, .nested, none⟩

/-- `Butler._getCfgsForInputsAndOutputs`: resolve a configuration for every
declaration in `inputs + outputs`, raising on the first fatal one. -/
def getCfgsForInputsAndOutputs (store : Nat → Option RepositoryCfg) :
    List RepositoryArgs → Except String (List RepoData)
  | [] => .ok []
  | a :: rest =>
    match getCfgOne store a with
    | .error e => .error e
    | .ok d =>
      match getCfgsForInputsAndOutputs store rest with
      | .error e => .error e
      | .ok ds => .ok (d :: ds)

lemma getCfgs_error_of_mem (store : Nat → Option RepositoryCfg)
    (l : List RepositoryArgs) (args : RepositoryArgs) (hmem : args ∈ l)
    (e : String) (he : getCfgOne store args = .error e) :
    ∃ e2, getCfgsForInputsAndOutputs store l = .error e2 := by
  induction l with
  | nil => exact absurd hmem (List.not_mem_nil args)
  | cons a rest ih =>
    unfold getCfgsForInputsAndOutputs
    rcases List.mem_cons.mp hmem with rfl | hmem2
    · rw [he]
      exact ⟨e, rfl⟩
    · match ha : getCfgOne store a with
      | .error e2 => exact ⟨e2, rfl⟩
      | .ok d =>
        rcases ih hmem2 with ⟨e2, he2⟩
        rw [he2]
        exact ⟨e2, rfl⟩

/-- **C4.** Configuration resolution per declaration: no persisted
configuration and a read-only declaration is fatal; no persisted
configuration and a writable declaration synthesizes one from the
declaration with origin `new`; a persisted configuration disagreeing with a
writable declaration is fatal; a read-only declaration with a disagreement
yields origin `nested` (with no persisted root recorded), and with agreement
origin `existing`.  Any fatal declaration makes the whole resolution loop
fail. -/
theorem claim4_getCfgsForInputsAndOutputs (store : Nat → Option RepositoryCfg)
    (args : RepositoryArgs) :
    (store args.cfgRoot = none → 'w' ∉ args.mode →
      getCfgOne store args = .error "No cfg found for read-only input repository")
    ∧ (store args.cfgRoot = none → 'w' ∈ args.mode →
      getCfgOne store args =
        .ok ⟨RepositoryCfg.makeFromArgs args, .new, some args.cfgRoot⟩)
    ∧ (∀ cfg, store args.cfgRoot = some cfg → 'w' ∈ args.mode →
        cfgMatchesArgs args cfg = false →
        getCfgOne store args = .error "Args and Cfg must match for writable repositories")
    ∧ (∀ cfg, store args.cfgRoot = some cfg → 'w' ∈ args.mode →
        cfgMatchesArgs args cfg = true →
        getCfgOne store args = .ok ⟨cfg, .existing, some args.cfgRoot⟩)
    ∧ (∀ cfg, store args.cfgRoot = some cfg → 'w' ∉ args.mode →
        cfgMatchesArgs args cfg = false →
        getCfgOne store args = .ok ⟨cfg, .nested, none⟩)
    ∧ (∀ cfg, store args.cfgRoot = some cfg → 'w' ∉ args.mode →
        cfgMatchesArgs args cfg = true →
        getCfgOne store args = .ok ⟨cfg, .existing, some args.cfgRoot⟩)
    ∧ (∀ l, args ∈ l → (∃ e, getCfgOne store args = .error e) →
        ∃ e2, getCfgsForInputsAndOutputs store l = .error e2) := by
  refine ⟨?_, ?_, ?_, ?_, ?_, ?_, ?_⟩
  · intro hs hw
    simp only [getCfgOne, hs]
    rw [if_pos hw]
  · intro hs hw
    simp only [getCfgOne, hs]
    rw [if_neg (by simpa using hw)]
  · intro cfg hs hw hm
    simp only [getCfgOne, hs]
    rw [if_pos hw, if_pos hm]
  · intro cfg hs hw hm
    simp only [getCfgOne, hs]
    rw [if_pos hw, if_neg (by simp [hm])]
  · intro cfg hs hw hm
    simp only [getCfgOne, hs]
    rw [if_neg hw, if_neg (by simp [hm])]
  · intro cfg hs hw hm
    simp only [getCfgOne, hs]
    rw [if_neg hw, if_pos hm]
  · rintro l hmem ⟨e, he⟩
    exact getCfgs_error_of_mem store l args hmem e he

/-- Witness for C4 at concrete inputs: a read-only declaration at a root with
no persisted configuration fails and makes the loop fail; a writable one at
the same root synthesizes a `new` configuration; a read-only declaration over
a persisted configuration with a different mapper becomes `nested`. -/
theorem claim4_witness :
    (getCfgOne (fun _ => none) ⟨0, "r".toList, none, none, none, []⟩ =
      .error "No cfg found for read-only input repository")
    ∧ (getCfgOne (fun _ => none) ⟨0, "w".toList, none, none, none, []⟩ =
      .ok ⟨RepositoryCfg.makeFromArgs ⟨0, "w".toList, none, none, none, []⟩,
        .new, some 0⟩)
    ∧ (getCfgOne (fun _ => some (.mk 0 (some 1) none []))
        ⟨0, "r".toList, some 2, none, none, []⟩ =
      .ok ⟨.mk 0 (some 1) none [], .nested, none⟩)
    ∧ (∃ e2, getCfgsForInputsAndOutputs (fun _ => none)
        [⟨0, "r".toList, none, none, none, []⟩] = .error e2) := by
  refine ⟨?_, ?_, ?_, ?_⟩
  · exact (claim4_getCfgsForInputsAndOutputs (fun _ => none)
      ⟨0, "r".toList, none, none, none, []⟩).1 rfl (by decide)
  · exact (claim4_getCfgsForInputsAndOutputs (fun _ => none)
      ⟨0, "w".toList, none, none, none, []⟩).2.1 rfl (by decide)
  · exact (claim4_getCfgsForInputsAndOutputs (fun _ => some (.mk 0 (some 1) none []))
      ⟨0, "r".toList, some 2, none, none, []⟩).2.2.2.2.1
      (.mk 0 (some 1) none []) rfl (by decide) (by decide)
  · exact (claim4_getCfgsForInputsAndOutputs (fun _ => none)
      ⟨0, "r".toList, none, none, none, []⟩).2.2.2.2.2.2
      [⟨0, "r".toList, none, none, none, []⟩] (by simp)
      ⟨_, (claim4_getCfgsForInputsAndOutputs (fun _ => none)
        ⟨0, "r".toList, none, none, none, []⟩).1 rfl (by decide)⟩

/-! ## `Butler.queryMetadata` (C10) -/

/-- Python runtime errors surfaced by the modelled fragment. -/
inductive PyError : Type where
  | nameError (n : String)
  | runtimeError (m : Str)
  | indexError
deriving DecidableEq

/-- A value in a metadata result row: a tuple or a bare scalar. -/
inductive PyVal : Type where
  | scalar (n : Nat)
  | tup (t : List Nat)
deriving DecidableEq

/-- A data identifier as seen by `queryMetadata`: only its visibility tags
matter to the modelled control flow. -/
structure DataIdQ where
  tag : List Nat

/-- One input repository node as consulted by `queryMetadata`: its tag set
and its (external) `repo.queryMetadata` behaviour, `None` folded into `[]`. -/
structure QueryRepo where
  tags : List Nat
  query : Str → List Str → DataIdQ → List PyVal

/-- The search loop of `Butler.queryMetadata` (`butler.py:1004-1009`): walk
input repositories in order, skipping nodes whose tags do not intersect a
tagged identifier, and stop at the first truthy (non-empty) result. -/
def queryLoop (inputs : List QueryRepo) (dt : Str) (fmt : List Str)
    (dataId : DataIdQ) : List PyVal :=
  match inputs with
  | [] => []
  | r :: rest =>
    if dataId.tag ≠ [] ∧ dataId.tag.inter r.tags = [] then
      queryLoop rest dt fmt dataId
    else
      match r.query dt fmt dataId with
      | [] => queryLoop rest dt fmt dataId
      | t => t

/-- The single-key flattening at `butler.py:1014-1021`: `x[0]` per row, with
`TypeError` (a non-subscriptable row) caught and the row kept whole; an empty
tuple raises an uncaught `IndexError`. -/
def flattenSingle : List PyVal → Except PyError (List PyVal)
  | [] => .ok []
  | .tup [] :: _ => .error .indexError
  | .tup (a :: _) :: rest =>
    match flattenSingle rest with
    | .error e => .error e
    | .ok l => .ok (.scalar a :: l)
  | .scalar n :: rest =>
    match flattenSingle rest with
    | .error e => .error e
    | .ok l => .ok (.scalar n :: l)

/-- `Butler.queryMetadata`: resolve the dataset-type alias, then handle the
`format` default.  When `format` is omitted the source executes
`format = (key,)` where `key` is an undefined name, raising `NameError`
before any repository is consulted; otherwise the repositories are searched
in input order and a single-key format flattens each row. -/
def queryMetadata (table : AliasDict) (inputs : List QueryRepo)
    (datasetType : Str) (format : Option (List Str)) (dataId : DataIdQ) :
    Except PyError (List PyVal) :=
  match resolveDatasetTypeAlias table datasetType with
  | .error e => .error (.runtimeError e)
  | .ok dt =>
    match format with
    | none => .error (.nameError "key")
    | some fmt =>
      let tuples := queryLoop inputs dt fmt dataId
      if tuples = [] then .ok []
      else if fmt.length = 1 then flattenSingle tuples
      else .ok tuples

/-- **C10.** Whenever `queryMetadata` is called with `format` omitted (and the
dataset type passes alias resolution, which runs first), it raises the
`NameError` for the undefined name `key` — independently of the repositories,
none of which is consulted — so the documented default (format defaulting to
the key) is unreachable. -/
theorem claim10_queryMetadata (table : AliasDict) (inputs : List QueryRepo)
    (dt : Str) (dataId : DataIdQ) (dt' : Str)
    (hres : resolveDatasetTypeAlias table dt = .ok dt') :
    queryMetadata table inputs dt none dataId = .error (.nameError "key")
    ∧ ∀ inputs2 dataId2, queryMetadata table inputs dt none dataId =
        queryMetadata table inputs2 dt none dataId2 := by
  constructor
  · unfold queryMetadata
    rw [hres]
  · intro inputs2 dataId2
    unfold queryMetadata
    rw [hres]

/-- Witness for C10 at concrete inputs: with an empty alias table, a plain
dataset type and any repositories, the omitted format raises the `key`
`NameError`. -/
theorem claim10_witness :
    queryMetadata [] [⟨[7], fun _ _ _ => [.tup [1, 2]]⟩] "raw".toList none ⟨[]⟩
      = .error (.nameError "key") :=
  (claim10_queryMetadata [] [⟨[7], fun _ _ _ => [.tup [1, 2]]⟩] "raw".toList
    ⟨[]⟩ "raw".toList rfl).1

/-! ## Parent lists: `Butler._getParents`, `Butler._setAndVerifyParentsLists` (C2) -/

/-- The pairing of a declaration with its resolved node
(`ArgsAndData = namedtuple('ArgsAndData', ['repoArgs', 'repoData'])`).
`nodeId` models Python object identity of the `RepoData` instance
(the `argsAndData.repoData is ofRepoData` test). -/
structure ArgsAndData where
  nodeId : Nat
  repoArgs : RepositoryArgs
  repoData : RepoData
deriving DecidableEq

/-- `Butler._getParentVal`: a nested node contributes its whole configuration
record, any other node contributes its configuration's root. -/
def getParentVal (d : RepoData) : ParentVal :=
  if d.cfgOrigin = .nested then .byCfg d.cfg else .byRoot d.cfg.root

/-- `Butler._getParents`: the effective parent list of a node — every other
declared repository that is readable, outputs before inputs, in declaration
order. -/
def getParents (ofNode : Nat) (inputs outputs : List ArgsAndData) :
    List ParentVal :=
  ((outputs ++ inputs).filter
    (fun a => a.nodeId != ofNode && decide ('r' ∈ a.repoArgs.mode))).map
    (fun a => getParentVal a.repoData)

/-- The update performed on a `new` output node: the effective parent list is
added to its configuration (`forRepoData.cfg.addParents(parents)`). -/
def processNew (eff : List ParentVal) (aad : ArgsAndData) : ArgsAndData :=
  ⟨aad.nodeId, aad.repoArgs,
    ⟨aad.repoData.cfg.addParents eff, aad.repoData.cfgOrigin, aad.repoData.cfgRoot⟩⟩

/-- The loop of `Butler._setAndVerifyParentsLists`, one output node per step:
a `new` node stores the effective parent list into its configuration (an
in-place object mutation, modelled by updating the list); an `existing` or
`nested` node must already carry exactly that list or construction fails.
`steps` is a structural recursion budget; the loop runs while `i` is in
range, so any `steps ≥ outputs.length` gives the loop's exact behaviour. -/
def setAndVerifyGo (inputs : List ArgsAndData) :
    Nat → List ArgsAndData → Nat → Except String (List ArgsAndData)
  | 0, outputs, _ => .ok outputs
  | steps + 1, outputs, i =>
    if h : i < outputs.length then
      let aad := outputs[i]
      let parents := getParents aad.nodeId inputs outputs
      if aad.repoData.cfgOrigin = .new then
        setAndVerifyGo inputs steps (outputs.set i (processNew parents aad)) (i + 1)
      else
        if aad.repoData.cfg.parents = parents then
          setAndVerifyGo inputs steps outputs (i + 1)
        else
          .error "Inputs of this Butler do not match existing cfg parents"
    else .ok outputs

/-- `Butler._setAndVerifyParentsLists`. -/
def setAndVerifyParentsLists (inputs outputs : List ArgsAndData) :
    Except String (List ArgsAndData) :=
  setAndVerifyGo inputs outputs.length outputs 0

/-- Two node states that the loop cannot tell apart when computing another
node's parent value: same identity, same declaration, same origin, same
configuration root, and — unless the node is `new` (the only kind the loop
rewrites) — equal outright. -/
def SimilarAAD (a b : ArgsAndData) : Prop :=
  a.nodeId = b.nodeId ∧ a.repoArgs = b.repoArgs ∧
  a.repoData.cfgOrigin = b.repoData.cfgOrigin ∧
  a.repoData.cfg.root = b.repoData.cfg.root ∧
  (a.repoData.cfgOrigin ≠ .new → a = b)

lemma similarAAD_refl (a : ArgsAndData) : SimilarAAD a a :=
  ⟨rfl, rfl, rfl, rfl, fun _ => rfl⟩

lemma addParents_root (c : RepositoryCfg) (ps : List ParentVal) :
    (c.addParents ps).root = c.root := rfl

lemma getParentVal_congr (a b : ArgsAndData) (h : SimilarAAD a b) :
    getParentVal a.repoData = getParentVal b.repoData := by
  rcases h with ⟨h1, h2, h3, h4, h5⟩
  by_cases hn : a.repoData.cfgOrigin = .nested
  · rw [h5 (by rw [hn]; intro hc; exact Origin.noConfusion hc)]
  · unfold getParentVal
    rw [if_neg hn, if_neg (h3 ▸ hn), h4]

lemma getParents_congr_aux (l1 l2 : List ArgsAndData) (ofN : Nat)
    (h : List.Forall₂ SimilarAAD l1 l2) :
    (l1.filter (fun a => a.nodeId != ofN && decide ('r' ∈ a.repoArgs.mode))).map
      (fun a => getParentVal a.repoData) =
    (l2.filter (fun a => a.nodeId != ofN && decide ('r' ∈ a.repoArgs.mode))).map
      (fun a => getParentVal a.repoData) := by
  induction h with
  | nil => rfl
  | cons hab hrest ih =>
    rename_i a b as bs
    have hcond : (a.nodeId != ofN && decide ('r' ∈ a.repoArgs.mode)) =
        (b.nodeId != ofN && decide ('r' ∈ b.repoArgs.mode)) := by
      rw [hab.1, hab.2.1]
    simp only [List.filter_cons]
    rw [hcond]
    by_cases hc : (b.nodeId != ofN && decide ('r' ∈ b.repoArgs.mode)) = true
    · rw [if_pos hc, if_pos hc]
      simp only [List.map_cons]
      rw [getParentVal_congr a b hab, ih]
    · rw [if_neg hc, if_neg hc, ih]

lemma getParents_congr (ofN : Nat) (inputs outs1 outs2 : List ArgsAndData)
    (h : List.Forall₂ SimilarAAD outs1 outs2) :
    getParents ofN inputs outs1 = getParents ofN inputs outs2 := by
  unfold getParents
  apply getParents_congr_aux
  exact List.rel_append h
    (List.forall₂_same.mpr (fun x _ => similarAAD_refl x))

lemma forall₂_set_left (R : ArgsAndData → ArgsAndData → Prop) :
    ∀ (l1 l2 : List ArgsAndData) (i : Nat) (a : ArgsAndData),
      List.Forall₂ R l1 l2 → (∀ b, l2[i]? = some b → R a b) →
      List.Forall₂ R (l1.set i a) l2 := by
  intro l1 l2 i a h
  induction h generalizing i with
  | nil => intro _; simp [List.set]
  | cons hab hrest ih =>
    rename_i x y xs ys
    intro hb
    cases i with
    | zero =>
      simp only [List.set]
      exact List.Forall₂.cons (hb y (by simp)) hrest
    | succ n =>
      simp only [List.set]
      exact List.Forall₂.cons hab (ih n (fun b hbm => hb b (by simpa using hbm)))

/-- The failure condition of the loop at index `j` of the original outputs:
a non-`new` node whose persisted parent list differs from its effective
parent list. -/
def badParentsAt (inputs orig : List ArgsAndData) (j : Nat) : Prop :=
  ∃ aad, orig[j]? = some aad ∧ aad.repoData.cfgOrigin ≠ .new ∧
    aad.repoData.cfg.parents ≠ getParents aad.nodeId inputs orig

lemma setAndVerifyGo_spec (inputs orig : List ArgsAndData) :
    ∀ (steps i : Nat) (cur : List ArgsAndData),
    orig.length ≤ steps + i →
    cur.length = orig.length →
    List.Forall₂ SimilarAAD cur orig →
    (∀ j, i ≤ j → cur[j]? = orig[j]?) →
    (∀ j, j < i → ∀ aad, orig[j]? = some aad →
      (aad.repoData.cfgOrigin = .new →
        cur[j]? = some (processNew (getParents aad.nodeId inputs orig) aad))
      ∧ (aad.repoData.cfgOrigin ≠ .new → cur[j]? = some aad)) →
    (((∃ e, setAndVerifyGo inputs steps cur i = .error e) ↔
        ∃ j, i ≤ j ∧ badParentsAt inputs orig j)
     ∧ ∀ res, setAndVerifyGo inputs steps cur i = .ok res →
        res.length = orig.length ∧
        ∀ (j : Nat) (aad : ArgsAndData), orig[j]? = some aad →
          (aad.repoData.cfgOrigin = .new →
            res[j]? = some (processNew (getParents aad.nodeId inputs orig) aad))
          ∧ (aad.repoData.cfgOrigin ≠ .new → res[j]? = some aad)) := by
  intro steps
  induction steps with
  | zero =>
    intro i cur hsteps hlen hsim hsuf hpre
    have hterm : ∀ j aad, orig[j]? = some aad → j < i := by
      intro j aad hj
      have : j < orig.length := by
        by_contra hge
        rw [List.getElem?_eq_none (by omega)] at hj
        exact Option.noConfusion hj
      omega
    constructor
    · simp only [setAndVerifyGo]
      constructor
      · rintro ⟨e, he⟩
        exact absurd he (by simp)
      · rintro ⟨j, hij, aad, hj, -, -⟩
        exact absurd (hterm j aad hj) (by omega)
    · intro res hres
      simp only [setAndVerifyGo, Except.ok.injEq] at hres
      subst hres
      exact ⟨hlen, fun j aad hj => hpre j (hterm j aad hj) aad hj⟩
  | succ steps ih =>
    intro i cur hsteps hlen hsim hsuf hpre
    by_cases h : i < cur.length
    · have horigi : orig[i]? = some cur[i] := by
        rw [← hsuf i (le_refl i), List.getElem?_eq_getElem h]
      have hparents : getParents cur[i].nodeId inputs cur =
          getParents cur[i].nodeId inputs orig :=
        getParents_congr _ inputs cur orig hsim
      by_cases horigin : cur[i].repoData.cfgOrigin = .new
      · -- the node is new: its cfg gets the effective parents and we recurse
        have hunf : setAndVerifyGo inputs (steps + 1) cur i =
            setAndVerifyGo inputs steps
              (cur.set i (processNew (getParents cur[i].nodeId inputs cur) cur[i]))
              (i + 1) := by
          simp only [setAndVerifyGo]
          rw [dif_pos h, if_pos horigin]
        set pn := processNew (getParents cur[i].nodeId inputs cur) cur[i] with hpn
        have hpnsim : SimilarAAD pn cur[i] :=
          ⟨rfl, rfl, rfl, addParents_root _ _, fun hne => absurd horigin hne⟩
        have hsim2 : List.Forall₂ SimilarAAD (cur.set i pn) orig := by
          apply forall₂_set_left _ _ _ _ _ hsim
          intro b hb
          rw [horigi] at hb
          have hb2 : b = cur[i] := by injection hb with hb2; exact hb2.symm
          rw [hb2]
          exact hpnsim
        have hres := ih (i + 1) (cur.set i pn) (by omega)
          (by simp [hlen])
          hsim2
          (by
            intro j hj
            rw [List.getElem?_set_ne (by omega)]
            exact hsuf j (by omega))
          (by
            intro j2 hj2lt aad hj2
            by_cases hji : j2 = i
            · rw [hji] at hj2 ⊢
              rw [horigi] at hj2
              have haad : aad = cur[i] := by injection hj2 with h2; exact h2.symm
              subst haad
              constructor
              · intro _
                rw [List.getElem?_set_self (by omega), hpn, hparents]
              · intro hne; exact absurd horigin hne
            · have hji2 : j2 < i := by omega
              rw [List.getElem?_set_ne (by omega)]
              exact hpre j2 hji2 aad hj2)
        rw [hunf]
        constructor
        · rw [hres.1]
          constructor
          · rintro ⟨j, hij, hbad⟩
            exact ⟨j, by omega, hbad⟩
          · rintro ⟨j, hij, hbad⟩
            refine ⟨j, ?_, hbad⟩
            rcases Nat.lt_or_ge i j with hlt | hge
            · omega
            · exfalso
              have hji : j = i := by omega
              subst hji
              rcases hbad with ⟨aad, hj2, hne, -⟩
              rw [horigi] at hj2
              have : aad = cur[j] := by injection hj2 with h2; exact h2.symm
              subst this
              exact hne horigin
        · exact hres.2
      · -- existing or nested: the persisted parents must equal the effective set
        by_cases hmatch : cur[i].repoData.cfg.parents =
            getParents cur[i].nodeId inputs cur
        · have hunf : setAndVerifyGo inputs (steps + 1) cur i =
              setAndVerifyGo inputs steps cur (i + 1) := by
            simp only [setAndVerifyGo]
            rw [dif_pos h, if_neg horigin, if_pos hmatch]
          have hres := ih (i + 1) cur (by omega) hlen hsim
            (fun j hj => hsuf j (by omega))
            (by
              intro j2 hj2lt aad hj2
              by_cases hji : j2 = i
              · rw [hji] at hj2 ⊢
                rw [horigi] at hj2
                have haad : aad = cur[i] := by injection hj2 with h2; exact h2.symm
                subst haad
                constructor
                · intro hnew; exact absurd hnew horigin
                · intro _
                  exact List.getElem?_eq_getElem h
              · exact hpre j2 (by omega) aad hj2)
          rw [hunf]
          constructor
          · rw [hres.1]
            constructor
            · rintro ⟨j, hij, hbad⟩
              exact ⟨j, by omega, hbad⟩
            · rintro ⟨j, hij, hbad⟩
              refine ⟨j, ?_, hbad⟩
              rcases Nat.lt_or_ge i j with hlt | hge
              · omega
              · exfalso
                have hji : j = i := by omega
                subst hji
                rcases hbad with ⟨aad, hj2, -, hneq⟩
                rw [horigi] at hj2
                have : aad = cur[j] := by injection hj2 with h2; exact h2.symm
                subst this
                rw [← hparents] at hneq
                exact hneq hmatch
          · exact hres.2
        · have hunf : setAndVerifyGo inputs (steps + 1) cur i =
              .error "Inputs of this Butler do not match existing cfg parents" := by
            simp only [setAndVerifyGo]
            rw [dif_pos h, if_neg horigin, if_neg hmatch]
          rw [hunf]
          constructor
          · constructor
            · intro _
              refine ⟨i, le_refl i, cur[i], horigi, horigin, ?_⟩
              rw [← hparents]
              exact hmatch
            · intro _
              exact ⟨_, rfl⟩
          · intro res hres
            exact absurd hres (by simp)
    · -- i is past the end: the loop is over
      have hterm : ∀ j aad, orig[j]? = some aad → j < i := by
        intro j aad hj
        have : j < orig.length := by
          by_contra hge
          rw [List.getElem?_eq_none (by omega)] at hj
          exact Option.noConfusion hj
        omega
      have hunf : setAndVerifyGo inputs (steps + 1) cur i = .ok cur := by
        simp only [setAndVerifyGo]
        rw [dif_neg h]
      rw [hunf]
      constructor
      · constructor
        · rintro ⟨e, he⟩
          exact absurd he (by simp)
        · rintro ⟨j, hij, aad, hj, -, -⟩
          exact absurd (hterm j aad hj) (by omega)
      · intro res hres
        have : res = cur := by injection hres with h2; exact h2.symm
        subst this
        exact ⟨hlen, fun j aad hj => hpre j (hterm j aad hj) aad hj⟩

/-- **C2.** `_setAndVerifyParentsLists` fails exactly when some output node
with origin `existing` or `nested` has a persisted parent list different from
its effective parent set (the other declared readable repositories, outputs
before inputs, excluding the node itself); on success every `new` output node
has the effective set added to its configuration's parent list and every
other node is untouched. -/
theorem claim2_setAndVerifyParentsLists (inputs outputs : List ArgsAndData) :
    ((∃ e, setAndVerifyParentsLists inputs outputs = .error e) ↔
      ∃ (j : Nat) (aad : ArgsAndData), outputs[j]? = some aad ∧
        aad.repoData.cfgOrigin ≠ .new ∧
        aad.repoData.cfg.parents ≠ getParents aad.nodeId inputs outputs)
    ∧ (∀ res, setAndVerifyParentsLists inputs outputs = .ok res →
        res.length = outputs.length ∧
        ∀ (j : Nat) (aad : ArgsAndData), outputs[j]? = some aad →
          (aad.repoData.cfgOrigin = .new →
            res[j]? = some (processNew (getParents aad.nodeId inputs outputs) aad))
          ∧ (aad.repoData.cfgOrigin ≠ .new → res[j]? = some aad)) := by
  have hspec := setAndVerifyGo_spec inputs outputs outputs.length 0 outputs
    (by omega) rfl
    (List.forall₂_same.mpr (fun x _ => similarAAD_refl x))
    (fun j _ => rfl)
    (fun j hj => absurd hj (by omega))
  unfold setAndVerifyParentsLists
  constructor
  · rw [hspec.1]
    constructor
    · rintro ⟨j, -, aad, hj, hne, hneq⟩
      exact ⟨j, aad, hj, hne, hneq⟩
    · rintro ⟨j, aad, hj, hne, hneq⟩
      exact ⟨j, by omega, aad, hj, hne, hneq⟩
  · exact hspec.2

/-- Witness for C2 at concrete inputs: one `new` output with one readable
input gets the input recorded as its parent; one `existing` output whose
persisted parents disagree with the declared input fails. -/
theorem claim2_witness :
    (setAndVerifyParentsLists
        [⟨1, ⟨10, "r".toList, none, none, none, []⟩,
          ⟨.mk 10 none none [], .existing, some 10⟩⟩]
        [⟨0, ⟨20, "w".toList, none, none, none, []⟩,
          ⟨.mk 20 none none [], .new, some 20⟩⟩]
      = .ok [⟨0, ⟨20, "w".toList, none, none, none, []⟩,
          ⟨.mk 20 none none [.byRoot 10], .new, some 20⟩⟩])
    ∧ (∃ e, setAndVerifyParentsLists
        [⟨1, ⟨10, "r".toList, none, none, none, []⟩,
          ⟨.mk 10 none none [], .existing, some 10⟩⟩]
        [⟨0, ⟨20, "w".toList, none, none, none, []⟩,
          ⟨.mk 20 none none [], .existing, some 20⟩⟩]
      = .error e) := by
  constructor
  · have h := (claim2_setAndVerifyParentsLists
      [⟨1, ⟨10, "r".toList, none, none, none, []⟩,
        ⟨.mk 10 none none [], .existing, some 10⟩⟩]
      [⟨0, ⟨20, "w".toList, none, none, none, []⟩,
        ⟨.mk 20 none none [], .new, some 20⟩⟩]).2
      [⟨0, ⟨20, "w".toList, none, none, none, []⟩,
        ⟨.mk 20 none none [.byRoot 10], .new, some 20⟩⟩] rfl
    -- the loop indeed produces exactly the processed node computed above
    rfl
  · exact (claim2_setAndVerifyParentsLists _ _).1.mpr
      ⟨0, ⟨0, ⟨20, "w".toList, none, none, none, []⟩,
        ⟨.mk 20 none none [], .existing, some 20⟩⟩, rfl, by decide, by decide⟩

/-! ## The repository graph: `RepoData.parentRepoDatas` links (C3, C8)

Nodes are `RepoData` instances identified by their Python object identity,
modelled as indices; `parents` lists each node's `parentRepoDatas`. -/

structure RepoGraph where
  parents : List (List Nat)

/-- A node's `parentRepoDatas` (an index outside the arena has none). -/
def parentsOf (g : RepoGraph) (n : Nat) : List Nat := g.parents.getD n []

/-- Transitive reachability along parent links (a node reaches itself, and
every ancestor through `parentRepoDatas`). -/
inductive Reach (g : RepoGraph) : Nat → Nat → Prop where
  | refl (n : Nat) : Reach g n n
  | step {n p m : Nat} : p ∈ parentsOf g n → Reach g p m → Reach g n m

/-- How many arena nodes are not yet on the visited list. -/
def unvisitedCount (N : Nat) (acc : List Nat) : Nat :=
  ((List.range N).filter (fun v => decide (v ∉ acc))).length

lemma filter_length_mono (l : List Nat) (p q : Nat → Bool)
    (h : ∀ a, p a = true → q a = true) :
    (l.filter p).length ≤ (l.filter q).length := by
  induction l with
  | nil => simp
  | cons a l ih =>
    simp only [List.filter_cons]
    by_cases hp : p a = true
    · rw [if_pos hp, if_pos (h a hp)]
      simpa using ih
    · rw [if_neg hp]
      by_cases hq : q a = true
      · rw [if_pos hq]
        simp only [List.length_cons]
        omega
      · rw [if_neg hq]
        exact ih

lemma filter_length_lt (l : List Nat) (acc : List Nat) (n : Nat)
    (hmem : n ∈ l) (hnot : n ∉ acc) :
    (l.filter (fun v => decide (v ∉ acc ++ [n]))).length <
    (l.filter (fun v => decide (v ∉ acc))).length := by
  have himp : ∀ a, (decide (a ∉ acc ++ [n]) = true) → (decide (a ∉ acc) = true) := by
    intro a ha
    simp only [decide_eq_true_eq, List.mem_append] at ha ⊢
    intro hc
    exact ha (Or.inl hc)
  induction l with
  | nil => cases hmem
  | cons a l ih =>
    simp only [List.filter_cons]
    rcases List.mem_cons.mp hmem with rfl | hmem2
    · rw [if_neg (by simp), if_pos (by simpa using hnot)]
      have hle := filter_length_mono l _ _ himp
      simp only [List.length_cons]
      omega
    · by_cases hpa : (decide (a ∉ acc ++ [n])) = true
      · rw [if_pos hpa, if_pos (himp a hpa)]
        simp only [List.length_cons]
        have := ih hmem2
        omega
      · rw [if_neg hpa]
        by_cases hqa : (decide (a ∉ acc)) = true
        · rw [if_pos hqa]
          simp only [List.length_cons]
          have := ih hmem2
          omega
        · rw [if_neg hqa]
          exact ih hmem2

lemma unvisitedCount_append_lt (N : Nat) (acc : List Nat) (n : Nat)
    (hn : n < N) (hnot : n ∉ acc) :
    unvisitedCount N (acc ++ [n]) < unvisitedCount N acc :=
  filter_length_lt (List.range N) acc n (List.mem_range.mpr hn) hnot

lemma unvisitedCount_append_invalid (N n : Nat) (acc : List Nat) (h : N ≤ n) :
    unvisitedCount N (acc ++ [n]) = unvisitedCount N acc := by
  unfold unvisitedCount
  congr 1
  apply List.filter_congr
  intro v hv
  have hvN : v < N := List.mem_range.mp hv
  have hvn : v ≠ n := by omega
  simp [List.mem_append, hvn]

lemma parentsOf_eq_nil (g : RepoGraph) (n : Nat) (h : g.parents.length ≤ n) :
    parentsOf g n = [] := by
  unfold parentsOf
  exact List.getD_eq_default _ _ h

/-- `addToList` of `RepoDataContainer._buildLookupLists`: append a node and,
depth first, each of its parents, skipping anything already added.  This is
the explicit-worklist form of the recursive helper — visiting `n` appends `n`
and then visits `n`'s parents in order before the rest of the worklist, which
is exactly what the recursion does, with the visited set read off the
accumulated list itself. -/
def addToList (g : RepoGraph) : List Nat → List Nat → List Nat
  | [], acc => acc
  | n :: ns, acc =>
    if n ∈ acc then addToList g ns acc
    else addToList g (parentsOf g n ++ ns) (acc ++ [n])
termination_by ws acc => (unvisitedCount g.parents.length acc, ws.length)
decreasing_by
  · exact Prod.Lex.right _ (by simp)
  · rename_i hnot
    by_cases hn : n < g.parents.length
    · exact Prod.Lex.left _ _ (unvisitedCount_append_lt _ _ _ hn hnot)
    · rw [unvisitedCount_append_invalid _ _ _ (by omega),
        parentsOf_eq_nil g n (by omega)]
      exact Prod.Lex.right _ (by simp)

/-- `RepoDataContainer._buildLookupLists`: the input order is built by
visiting the readable outputs in declaration order, then the inputs in
declaration order, each through `addToList` into one shared list; the output
order is just the outputs in declaration order. -/
def buildLookupLists (g : RepoGraph) (inputs outputs : List ArgsAndData) :
    List Nat × List Nat :=
  (inputs.foldl (fun lst a => addToList g [a.nodeId] lst)
    (outputs.foldl
      (fun lst a => if 'r' ∈ a.repoArgs.mode then addToList g [a.nodeId] lst else lst)
      []),
   outputs.map (fun a => a.nodeId))

lemma addToList_mem_acc (g : RepoGraph) :
    ∀ (ws acc : List Nat) (a : Nat), a ∈ acc → a ∈ addToList g ws acc := by
  intro ws acc
  induction ws, acc using addToList.induct g with
  | case1 acc => intro a ha; simpa [addToList] using ha
  | case2 n ns acc hmem ih =>
    intro a ha
    rw [addToList, if_pos hmem]
    exact ih a ha
  | case3 n ns acc hmem ih =>
    intro a ha
    rw [addToList, if_neg hmem]
    exact ih a (by simp [ha])

lemma addToList_mem_ws (g : RepoGraph) :
    ∀ (ws acc : List Nat) (a : Nat), a ∈ ws → a ∈ addToList g ws acc := by
  intro ws acc
  induction ws, acc using addToList.induct g with
  | case1 acc => intro a ha; cases ha
  | case2 n ns acc hmem ih =>
    intro a ha
    rw [addToList, if_pos hmem]
    rcases List.mem_cons.mp ha with rfl | ha2
    · exact addToList_mem_acc g ns acc a hmem
    · exact ih a ha2
  | case3 n ns acc hmem ih =>
    intro a ha
    rw [addToList, if_neg hmem]
    rcases List.mem_cons.mp ha with rfl | ha2
    · exact addToList_mem_acc g _ _ a (by simp)
    · exact ih a (by simp [ha2])

lemma addToList_closed (g : RepoGraph) :
    ∀ (ws acc : List Nat),
    (∀ a ∈ acc, ∀ p ∈ parentsOf g a, p ∈ acc ∨ p ∈ ws) →
    ∀ a ∈ addToList g ws acc, ∀ p ∈ parentsOf g a, p ∈ addToList g ws acc := by
  intro ws acc
  induction ws, acc using addToList.induct g with
  | case1 acc =>
    intro hcl a ha p hp
    rw [addToList] at ha ⊢
    rcases hcl a ha p hp with h | h
    · exact h
    · cases h
  | case2 n ns acc hmem ih =>
    intro hcl
    rw [addToList, if_pos hmem]
    apply ih
    intro a ha p hp
    rcases hcl a ha p hp with h | h
    · exact Or.inl h
    · rcases List.mem_cons.mp h with rfl | h2
      · exact Or.inl hmem
      · exact Or.inr h2
  | case3 n ns acc hmem ih =>
    intro hcl
    rw [addToList, if_neg hmem]
    apply ih
    intro a ha p hp
    rcases List.mem_append.mp ha with ha2 | ha2
    · rcases hcl a ha2 p hp with h | h
      · exact Or.inl (by simp [h])
      · rcases List.mem_cons.mp h with rfl | h2
        · exact Or.inl (by simp)
        · exact Or.inr (by simp [h2])
    · have : a = n := by simpa using ha2
      subst this
      exact Or.inr (by simp [hp])

lemma addToList_nodup (g : RepoGraph) :
    ∀ (ws acc : List Nat), acc.Nodup → (addToList g ws acc).Nodup := by
  intro ws acc
  induction ws, acc using addToList.induct g with
  | case1 acc => intro h; rw [addToList]; exact h
  | case2 n ns acc hmem ih =>
    intro h
    rw [addToList, if_pos hmem]
    exact ih h
  | case3 n ns acc hmem ih =>
    intro h
    rw [addToList, if_neg hmem]
    exact ih (by simp [List.nodup_append, h, hmem])

lemma addToList_sound (g : RepoGraph) :
    ∀ (ws acc : List Nat), ∀ a ∈ addToList g ws acc,
      a ∈ acc ∨ ∃ n ∈ ws, Reach g n a := by
  intro ws acc
  induction ws, acc using addToList.induct g with
  | case1 acc =>
    intro a ha
    rw [addToList] at ha
    exact Or.inl ha
  | case2 n ns acc hmem ih =>
    intro a ha
    rw [addToList, if_pos hmem] at ha
    rcases ih a ha with h | ⟨n2, hn2, hr⟩
    · exact Or.inl h
    · exact Or.inr ⟨n2, by simp [hn2], hr⟩
  | case3 n ns acc hmem ih =>
    intro a ha
    rw [addToList, if_neg hmem] at ha
    rcases ih a ha with h | ⟨n2, hn2, hr⟩
    · rcases List.mem_append.mp h with h2 | h2
      · exact Or.inl h2
      · have : a = n := by simpa using h2
        subst this
        exact Or.inr ⟨a, by simp, Reach.refl a⟩
    · rcases List.mem_append.mp hn2 with h2 | h2
      · exact Or.inr ⟨n, by simp, Reach.step h2 hr⟩
      · exact Or.inr ⟨n2, by simp [h2], hr⟩

lemma reach_mem_of_closed (g : RepoGraph) (l : List Nat)
    (hcl : ∀ a ∈ l, ∀ p ∈ parentsOf g a, p ∈ l) :
    ∀ n m, Reach g n m → n ∈ l → m ∈ l := by
  intro n m hr
  induction hr with
  | refl n => exact id
  | step hp _ ih => exact fun hn => ih (hcl _ hn _ hp)

/-- The input order as accumulated so far is absolutely closed after any
`addToList` call whose starting accumulator was closed. -/
lemma addToList_closed_abs (g : RepoGraph) (ws acc : List Nat)
    (hcl : ∀ a ∈ acc, ∀ p ∈ parentsOf g a, p ∈ acc) :
    ∀ a ∈ addToList g ws acc, ∀ p ∈ parentsOf g a, p ∈ addToList g ws acc :=
  addToList_closed g ws acc (fun a ha p hp => Or.inl (hcl a ha p hp))

/-- Invariant carried through the two folds of `buildLookupLists`. -/
def GoodAcc (g : RepoGraph) (lst : List Nat) : Prop :=
  lst.Nodup ∧ (∀ a ∈ lst, ∀ p ∈ parentsOf g a, p ∈ lst)

lemma addToList_good (g : RepoGraph) (n : Nat) (lst : List Nat)
    (h : GoodAcc g lst) : GoodAcc g (addToList g [n] lst) :=
  ⟨addToList_nodup g [n] lst h.1, addToList_closed_abs g [n] lst h.2⟩

/-- The node ids the two loops of `_buildLookupLists` start from: readable
outputs in declaration order, then inputs in declaration order. -/
def rootsList (inputs outputs : List ArgsAndData) : List Nat :=
  (outputs.filter (fun a => decide ('r' ∈ a.repoArgs.mode))).map (fun a => a.nodeId)
    ++ inputs.map (fun a => a.nodeId)

lemma outputs_fold_eq (g : RepoGraph) :
    ∀ (l : List ArgsAndData) (acc : List Nat),
    l.foldl (fun lst a => if 'r' ∈ a.repoArgs.mode then addToList g [a.nodeId] lst else lst) acc
      = ((l.filter (fun a => decide ('r' ∈ a.repoArgs.mode))).map
          (fun a => a.nodeId)).foldl (fun lst n => addToList g [n] lst) acc := by
  intro l
  induction l with
  | nil => intro acc; rfl
  | cons a l ih =>
    intro acc
    simp only [List.foldl_cons, List.filter_cons]
    by_cases hc : 'r' ∈ a.repoArgs.mode
    · rw [if_pos hc, if_pos (by simpa using hc)]
      simp only [List.map_cons, List.foldl_cons]
      exact ih _
    · rw [if_neg hc, if_neg (by simpa using hc)]
      exact ih _

lemma buildLookupLists_fst_eq (g : RepoGraph) (inputs outputs : List ArgsAndData) :
    (buildLookupLists g inputs outputs).1 =
      (rootsList inputs outputs).foldl (fun lst n => addToList g [n] lst) [] := by
  unfold buildLookupLists rootsList
  rw [List.foldl_append, outputs_fold_eq g outputs, List.foldl_map,
    List.foldl_map]

lemma roots_fold_good (g : RepoGraph) :
    ∀ (roots : List Nat) (acc : List Nat), GoodAcc g acc →
      GoodAcc g (roots.foldl (fun lst n => addToList g [n] lst) acc) := by
  intro roots
  induction roots with
  | nil => intro acc h; exact h
  | cons n ns ih =>
    intro acc h
    exact ih _ (addToList_good g n acc h)

lemma roots_fold_mem_acc (g : RepoGraph) :
    ∀ (roots : List Nat) (acc : List Nat) (a : Nat), a ∈ acc →
      a ∈ roots.foldl (fun lst n => addToList g [n] lst) acc := by
  intro roots
  induction roots with
  | nil => intro acc a h; exact h
  | cons n ns ih =>
    intro acc a h
    exact ih _ a (addToList_mem_acc g [n] acc a h)

lemma roots_fold_mem_root (g : RepoGraph) :
    ∀ (roots : List Nat) (acc : List Nat) (n : Nat), n ∈ roots →
      n ∈ roots.foldl (fun lst m => addToList g [m] lst) acc := by
  intro roots
  induction roots with
  | nil => intro acc n h; cases h
  | cons r rs ih =>
    intro acc n h
    rcases List.mem_cons.mp h with rfl | h2
    · exact roots_fold_mem_acc g rs _ n (addToList_mem_ws g [n] acc n (by simp))
    · exact ih _ n h2

lemma roots_fold_sound (g : RepoGraph) :
    ∀ (roots : List Nat) (acc : List Nat) (a : Nat),
      a ∈ roots.foldl (fun lst n => addToList g [n] lst) acc →
      a ∈ acc ∨ ∃ n ∈ roots, Reach g n a := by
  intro roots
  induction roots with
  | nil => intro acc a h; exact Or.inl h
  | cons r rs ih =>
    intro acc a h
    rcases ih _ a h with h2 | ⟨n, hn, hr⟩
    · rcases addToList_sound g [r] acc a h2 with h3 | ⟨n, hn, hr⟩
      · exact Or.inl h3
      · have : n = r := by simpa using hn
        subst this
        exact Or.inr ⟨n, by simp, hr⟩
    · exact Or.inr ⟨n, by simp [hn], hr⟩

/-- **C3.** The derived input order — the depth-first, parent-after-child
traversal from the readable outputs in declaration order then the inputs in
declaration order, de-duplicated by node identity — contains no duplicates,
contains every node reachable from those roots, contains nothing else, and
hence lists every reachable node exactly once even when ancestors are
shared; the output order is exactly the outputs in declaration order. -/
theorem claim3_buildLookupLists (g : RepoGraph)
    (inputs outputs : List ArgsAndData) :
    ((buildLookupLists g inputs outputs).1.Nodup)
    ∧ (∀ m n, n ∈ rootsList inputs outputs → Reach g n m →
        m ∈ (buildLookupLists g inputs outputs).1)
    ∧ (∀ a ∈ (buildLookupLists g inputs outputs).1,
        ∃ n ∈ rootsList inputs outputs, Reach g n a)
    ∧ (∀ m n, n ∈ rootsList inputs outputs → Reach g n m →
        (buildLookupLists g inputs outputs).1.count m = 1)
    ∧ (buildLookupLists g inputs outputs).2 = outputs.map (fun a => a.nodeId) := by
  have hgood : GoodAcc g (buildLookupLists g inputs outputs).1 := by
    rw [buildLookupLists_fst_eq]
    exact roots_fold_good g _ [] ⟨List.nodup_nil, by simp⟩
  have hmem : ∀ m n, n ∈ rootsList inputs outputs → Reach g n m →
      m ∈ (buildLookupLists g inputs outputs).1 := by
    intro m n hn hr
    have hroot : n ∈ (buildLookupLists g inputs outputs).1 := by
      rw [buildLookupLists_fst_eq]
      exact roots_fold_mem_root g _ [] n hn
    exact reach_mem_of_closed g _ hgood.2 n m hr hroot
  refine ⟨hgood.1, hmem, ?_, ?_, rfl⟩
  · intro a ha
    rw [buildLookupLists_fst_eq] at ha
    rcases roots_fold_sound g _ [] a ha with h | h
    · cases h
    · exact h
  · intro m n hn hr
    exact List.count_eq_one_of_mem hgood.1 (hmem m n hn hr)

/-- Witness for C3 at a concrete graph with a shared ancestor: nodes `0`
(readable output) and `1` (input) both have parent `2`; the traversal lists
`2` exactly once, and every reachable node is present. -/
theorem claim3_witness :
    (buildLookupLists ⟨[[2], [2], []]⟩
      [⟨1, ⟨11, "r".toList, none, none, none, []⟩, ⟨.mk 11 none none [], .existing, some 11⟩⟩]
      [⟨0, ⟨10, "rw".toList, none, none, none, []⟩, ⟨.mk 10 none none [], .new, some 10⟩⟩]).1.count 2
      = 1
    ∧ 1 ∈ (buildLookupLists ⟨[[2], [2], []]⟩
      [⟨1, ⟨11, "r".toList, none, none, none, []⟩, ⟨.mk 11 none none [], .existing, some 11⟩⟩]
      [⟨0, ⟨10, "rw".toList, none, none, none, []⟩, ⟨.mk 10 none none [], .new, some 10⟩⟩]).1 := by
  constructor
  · exact (claim3_buildLookupLists ⟨[[2], [2], []]⟩ _ _).2.2.2.1 2 0 (by decide)
      (Reach.step (by decide) (Reach.refl 2))
  · exact (claim3_buildLookupLists ⟨[[2], [2], []]⟩ _ _).2.1 1 1 (by decide)
      (Reach.refl 1)

/-! ## Tag propagation: `Butler._setRepoDataTags`, `RepoData.addTags` (C8) -/

/-- Per-node tag sets, as membership-equivalent lists. -/
abbrev TagState := Nat → List Nat

/-- `RepoData.addTags`: `self.tags = self.tags.union(tags)` — tags are only
ever added to a node's set. -/
def addTags (st : TagState) (n : Nat) (ts : List Nat) : TagState :=
  fun i => if i = n then st i ++ ts else st i

/-- The recursive `setTags` helper of `Butler._setRepoDataTags`: add the tags
to the node and, depth-first, to every parent.  The Python recursion carries
no visited set; `fuel` is a structural recursion budget, and any derivation
of reachability of depth `k < fuel` is reached by the push. -/
def setTags (g : RepoGraph) : Nat → Nat → List Nat → TagState → TagState
  | 0, _, _, st => st
  | fuel + 1, n, ts, st =>
    (parentsOf g n).foldl (fun s p => setTags g fuel p ts s) (addTags st n ts)

/-- `Butler._setRepoDataTags`: push every declaration's tags onto its node
and all its transitive parents, outputs then inputs. -/
def setRepoDataTags (g : RepoGraph) (fuel : Nat)
    (inputs outputs : List ArgsAndData) (st : TagState) : TagState :=
  (outputs ++ inputs).foldl
    (fun s a => setTags g fuel a.nodeId a.repoArgs.tags s) st

/-- Reachability along parent links with an explicit path length. -/
inductive ReachN (g : RepoGraph) : Nat → Nat → Nat → Prop where
  | refl (n : Nat) : ReachN g 0 n n
  | step {k n p m : Nat} : p ∈ parentsOf g n → ReachN g k p m →
      ReachN g (k + 1) n m

lemma setTags_mono (g : RepoGraph) :
    ∀ (fuel n : Nat) (ts : List Nat) (st : TagState) (i t : Nat),
      t ∈ st i → t ∈ setTags g fuel n ts st i := by
  intro fuel
  induction fuel with
  | zero => intro n ts st i t h; simpa [setTags] using h
  | succ f ih =>
    intro n ts st i t h
    simp only [setTags]
    have h1 : t ∈ addTags st n ts i := by
      unfold addTags
      by_cases hin : i = n
      · rw [if_pos hin]; exact List.mem_append.mpr (Or.inl h)
      · rw [if_neg hin]; exact h
    suffices H : ∀ (ps : List Nat) (s : TagState), t ∈ s i →
        t ∈ (ps.foldl (fun s p => setTags g f p ts s) s) i by
      exact H _ _ h1
    intro ps
    induction ps with
    | nil => intro s hs; exact hs
    | cons p ps ihp =>
      intro s hs
      exact ihp _ (ih p ts s i t hs)

lemma foldTags_mono (g : RepoGraph) (f : Nat) (ts : List Nat) :
    ∀ (ps : List Nat) (s : TagState) (i t : Nat), t ∈ s i →
      t ∈ (ps.foldl (fun s p => setTags g f p ts s) s) i := by
  intro ps
  induction ps with
  | nil => intro s i t hs; exact hs
  | cons p ps ih =>
    intro s i t hs
    exact ih _ i t (setTags_mono g f p ts s i t hs)

lemma foldTags_push (g : RepoGraph) (f : Nat) (ts : List Nat) (p m t : Nat)
    (H : ∀ s, t ∈ setTags g f p ts s m) :
    ∀ (ps : List Nat) (s : TagState), p ∈ ps →
      t ∈ (ps.foldl (fun s q => setTags g f q ts s) s) m := by
  intro ps
  induction ps with
  | nil => intro s h; cases h
  | cons q qs ih =>
    intro s hmem
    rcases List.mem_cons.mp hmem with rfl | h2
    · exact foldTags_mono g f ts qs _ m t (H s)
    · exact ih _ h2

lemma setTags_push (g : RepoGraph) :
    ∀ (k n m : Nat), ReachN g k n m → ∀ (fuel : Nat), k < fuel →
      ∀ (ts : List Nat) (st : TagState) (t : Nat), t ∈ ts →
        t ∈ setTags g fuel n ts st m := by
  intro k n m hr
  induction hr with
  | refl n =>
    intro fuel hf ts st t ht
    match fuel, hf with
    | f + 1, _ =>
      simp only [setTags]
      apply foldTags_mono
      unfold addTags
      rw [if_pos rfl]
      exact List.mem_append.mpr (Or.inr ht)
  | @step k n p m hp _ ih =>
    intro fuel hf ts st t ht
    match fuel, hf with
    | f + 1, hf =>
      simp only [setTags]
      exact foldTags_push g f ts p m t
        (fun s => ih f (by omega) ts s t ht) _ _ hp

lemma foldDecls_mono (g : RepoGraph) (fuel : Nat) :
    ∀ (l : List ArgsAndData) (s : TagState) (i t : Nat), t ∈ s i →
      t ∈ (l.foldl (fun s a => setTags g fuel a.nodeId a.repoArgs.tags s) s) i := by
  intro l
  induction l with
  | nil => intro s i t hs; exact hs
  | cons a l ih =>
    intro s i t hs
    exact ih _ i t (setTags_mono g fuel a.nodeId a.repoArgs.tags s i t hs)

lemma foldDecls_push (g : RepoGraph) (fuel : Nat) (a : ArgsAndData) (m t : Nat)
    (H : ∀ s, t ∈ setTags g fuel a.nodeId a.repoArgs.tags s m) :
    ∀ (l : List ArgsAndData) (s : TagState), a ∈ l →
      t ∈ (l.foldl (fun s b => setTags g fuel b.nodeId b.repoArgs.tags s) s) m := by
  intro l
  induction l with
  | nil => intro s h; cases h
  | cons b l ih =>
    intro s hmem
    rcases List.mem_cons.mp hmem with rfl | h2
    · exact foldDecls_mono g fuel l _ m t (H s)
    · exact ih _ h2

/-- **C8.** Tag propagation is monotonic: the final tag state keeps every tag
already present (tags are only added, never removed), and for every
declaration and every node reachable from the declaration's node through
parent links (in fewer steps than the recursion budget), each of the
declaration's tags ends up in that node's tag set — so a node's final tag set
is a superset of the union of the tags of every declaration whose node
transitively includes it as a parent. -/
theorem claim8_setRepoDataTags (g : RepoGraph) (fuel : Nat)
    (inputs outputs : List ArgsAndData) (st : TagState) :
    (∀ i t, t ∈ st i → t ∈ setRepoDataTags g fuel inputs outputs st i)
    ∧ (∀ a, a ∈ outputs ++ inputs → ∀ k m t, ReachN g k a.nodeId m →
        k < fuel → t ∈ a.repoArgs.tags →
        t ∈ setRepoDataTags g fuel inputs outputs st m) := by
  constructor
  · intro i t ht
    exact foldDecls_mono g fuel (outputs ++ inputs) st i t ht
  · intro a hmem k m t hr hk ht
    exact foldDecls_push g fuel a m t
      (fun s => setTags_push g k a.nodeId m hr fuel hk a.repoArgs.tags s t ht)
      (outputs ++ inputs) st hmem

/-- Witness for C8 at a concrete graph: an output declaration on node `0`
tagged `5` pushes tag `5` onto its parent node `1`, and a pre-existing tag is
kept. -/
theorem claim8_witness :
    (5 ∈ setRepoDataTags ⟨[[1], []]⟩ 2 []
      [⟨0, ⟨10, "rw".toList, none, none, none, [5]⟩,
        ⟨.mk 10 none none [], .new, some 10⟩⟩] (fun _ => []) 1)
    ∧ (9 ∈ setRepoDataTags ⟨[[1], []]⟩ 2 []
      [⟨0, ⟨10, "rw".toList, none, none, none, [5]⟩,
        ⟨.mk 10 none none [], .new, some 10⟩⟩] (fun _ => [9]) 0) := by
  constructor
  · exact (claim8_setRepoDataTags ⟨[[1], []]⟩ 2 []
      [⟨0, ⟨10, "rw".toList, none, none, none, [5]⟩,
        ⟨.mk 10 none none [], .new, some 10⟩⟩] (fun _ => [])).2
      ⟨0, ⟨10, "rw".toList, none, none, none, [5]⟩,
        ⟨.mk 10 none none [], .new, some 10⟩⟩ (by simp) 1 1 5
      (ReachN.step (by decide) (ReachN.refl 1)) (by decide) (by decide)
  · exact (claim8_setRepoDataTags ⟨[[1], []]⟩ 2 []
      [⟨0, ⟨10, "rw".toList, none, none, none, [5]⟩,
        ⟨.mk 10 none none [], .new, some 10⟩⟩] (fun _ => [9])).1 0 9 (by decide)

/-! ## Read-path location resolution: `Butler._locate` (C5) and `Butler.get` (C1)

The embedding covers un-dotted dataset types: for them the component split at
`butler.py:1084-1086` leaves `components` empty and the dotted recursion at
`butler.py:1094-1104` is not exercised.  A repository's `repo.map` and the
storage/mapper behaviours behind a returned location are external
collaborators, modelled as data on the node and location. -/

/-- A data identifier as seen by `_locate`: only its visibility tags drive
the modelled control flow. -/
structure DataIdM where
  tag : List Nat

/-- Objects produced by the read path: a raw read, a bypass value, the result
of a standardization hook, or an assembled composite. -/
inductive ObjM : Type where
  | raw (v : Nat)
  | bypassVal (v : Nat)
  | standardized (o : ObjM)
  | assembled (comps : List (Str × ObjM))

/-- `componentInfo` entry of a `ButlerComposite`: the component's dataset
type (the subset-flagged component path at `butler.py:1172-1174`, which also
funnels into `butler.get`, is outside the modelled fragment). -/
structure CompInfoM where
  datasetType : Str

/-- A mapped location (`ButlerLocation` or `ButlerComposite`) together with
the external behaviours `_locate`/`get` consult on it: whether it is a
composite (and its components and their data id), whether its mapper defines
a `bypass_` accessor for this dataset type and whether calling it raises,
whether the storage backend reports the object exists, the value a plain
read produces, and whether the mapper can standardize this dataset type. -/
structure LocationM where
  dataId : DataIdM
  isComposite : Bool
  comps : List (Str × CompInfoM)
  hasBypass : Bool
  bypassRaises : Bool
  bypassResult : ObjM
  existsInStorage : Bool
  readResult : ObjM
  canStd : Bool

/-- The outcome of `repoData.repo.map(datasetType, dataId)`: a `NoResults`
exception, no location, or a location. -/
inductive MapRes : Type where
  | raisesNoResults
  | noLocation
  | found (loc : LocationM)

/-- One input repository node as consulted by `_locate`: its tag set and its
external mapping behaviour. -/
structure RepoNode where
  tags : List Nat
  map : Str → DataIdM → MapRes

/-- The read branch of `Butler._locate` (`write=False`): walk the input order;
skip a node when the identifier is tagged and the tag sets do not intersect;
on a mapped location, a bypass accessor returns it immediately unless the
bypass call raises (then the search continues); otherwise the location is
returned only if it is a composite or the storage backend reports it exists,
else the search continues; `None` when no repository yields a location. -/
def locateRead (inputs : List RepoNode) (datasetType : Str) (dataId : DataIdM) :
    Option LocationM :=
  match inputs with
  | [] => none
  | n :: rest =>
    if dataId.tag ≠ [] ∧ dataId.tag.inter n.tags = [] then
      locateRead rest datasetType dataId
    else
      match n.map datasetType dataId with
      | .raisesNoResults => locateRead rest datasetType dataId
      | .noLocation => locateRead rest datasetType dataId
      | .found loc =>
        if loc.hasBypass then
          if loc.bypassRaises then locateRead rest datasetType dataId
          else some loc
        else if loc.isComposite || loc.existsInStorage then some loc
        else locateRead rest datasetType dataId

/-- What one node contributes to the read search, in isolation. -/
def nodeOffer (n : RepoNode) (datasetType : Str) (dataId : DataIdM) :
    Option LocationM :=
  if dataId.tag ≠ [] ∧ dataId.tag.inter n.tags = [] then none
  else
    match n.map datasetType dataId with
    | .raisesNoResults => none
    | .noLocation => none
    | .found loc =>
      if loc.hasBypass then
        if loc.bypassRaises then none else some loc
      else if loc.isComposite || loc.existsInStorage then some loc
      else none

lemma locateRead_eq_findSome (inputs : List RepoNode) (dt : Str)
    (dataId : DataIdM) :
    locateRead inputs dt dataId =
      inputs.findSome? (fun n => nodeOffer n dt dataId) := by
  induction inputs with
  | nil => rfl
  | cons n rest ih =>
    rw [locateRead, List.findSome?_cons]
    unfold nodeOffer
    by_cases hskip : dataId.tag ≠ [] ∧ dataId.tag.inter n.tags = []
    · rw [if_pos hskip, if_pos hskip]
      exact ih
    · rw [if_neg hskip, if_neg hskip]
      cases hm : n.map dt dataId with
      | raisesNoResults => dsimp only; exact ih
      | noLocation => dsimp only; exact ih
      | found loc =>
        dsimp only
        by_cases hb : loc.hasBypass = true
        · rw [if_pos hb, if_pos hb]
          by_cases hr : loc.bypassRaises = true
          · rw [if_pos hr, if_pos hr]
            exact ih
          · rw [if_neg hr, if_neg hr]
        · rw [if_neg hb, if_neg hb]
          by_cases hc : (loc.isComposite || loc.existsInStorage) = true
          · rw [if_pos hc, if_pos hc]
          · rw [if_neg hc, if_neg hc]
            exact ih

/-- **C5.** Read-path locate over the input order: a node whose tag set does
not intersect a tagged identifier is skipped outright; a returned
non-composite, non-bypass location always physically exists in its storage
backend (otherwise the search had continued); and if no node offers an
accepted location the result is `None`. -/
theorem claim5_locateRead (inputs : List RepoNode) (n : RepoNode)
    (rest : List RepoNode) (dt : Str) (dataId : DataIdM) :
    (dataId.tag ≠ [] → dataId.tag.inter n.tags = [] →
      locateRead (n :: rest) dt dataId = locateRead rest dt dataId)
    ∧ (∀ loc, locateRead inputs dt dataId = some loc →
        loc.isComposite = false → loc.hasBypass = false →
        loc.existsInStorage = true)
    ∧ ((∀ m ∈ inputs, nodeOffer m dt dataId = none) →
        locateRead inputs dt dataId = none) := by
  refine ⟨?_, ?_, ?_⟩
  · intro h1 h2
    rw [locateRead, if_pos ⟨h1, h2⟩]
  · induction inputs with
    | nil => intro loc h; cases h
    | cons m ms ih =>
      intro loc h hcomp hbyp
      rw [locateRead] at h
      by_cases hskip : dataId.tag ≠ [] ∧ dataId.tag.inter m.tags = []
      · rw [if_pos hskip] at h
        exact ih loc h hcomp hbyp
      · rw [if_neg hskip] at h
        revert h
        cases hm : m.map dt dataId with
        | raisesNoResults => dsimp only; intro h; exact ih loc h hcomp hbyp
        | noLocation => dsimp only; intro h; exact ih loc h hcomp hbyp
        | found loc2 =>
          dsimp only
          intro h
          by_cases hb : loc2.hasBypass = true
          · rw [if_pos hb] at h
            by_cases hr : loc2.bypassRaises = true
            · rw [if_pos hr] at h
              exact ih loc h hcomp hbyp
            · rw [if_neg hr] at h
              injection h with h2
              subst h2
              rw [hb] at hbyp
              exact absurd hbyp (by simp)
          · rw [if_neg hb] at h
            by_cases hc : (loc2.isComposite || loc2.existsInStorage) = true
            · rw [if_pos hc] at h
              injection h with h2
              subst h2
              rcases Bool.or_eq_true_iff.mp hc with h3 | h3
              · rw [h3] at hcomp
                exact absurd hcomp (by simp)
              · exact h3
            · rw [if_neg hc] at h
              exact ih loc h hcomp hbyp
  · intro hnone
    rw [locateRead_eq_findSome]
    exact List.findSome?_eq_none_iff.mpr hnone

/-- Witness for C5 at concrete inputs: a tagged identifier skips a node with
disjoint tags even though it would map the dataset; a located non-bypass,
non-composite dataset that the backend reports as existing is returned with
`existsInStorage = true`; an input list whose only node reports the object
absent yields `None`. -/
theorem claim5_witness :
    (locateRead
      [⟨[3], fun _ _ => .found ⟨⟨[]⟩, false, [], false, false, .raw 0, true, .raw 1, false⟩⟩]
      "raw".toList ⟨[4]⟩
      = locateRead [] "raw".toList ⟨[4]⟩)
    ∧ (∀ loc, locateRead
        [⟨[3], fun _ _ => .found ⟨⟨[]⟩, false, [], false, false, .raw 0, true, .raw 1, false⟩⟩]
        "raw".toList ⟨[]⟩ = some loc →
        loc.isComposite = false → loc.hasBypass = false →
        loc.existsInStorage = true)
    ∧ (locateRead
        [⟨[3], fun _ _ => .found ⟨⟨[]⟩, false, [], false, false, .raw 0, false, .raw 1, false⟩⟩]
        "raw".toList ⟨[]⟩ = none) := by
  refine ⟨?_, ?_, ?_⟩
  · exact (claim5_locateRead []
      ⟨[3], fun _ _ => .found ⟨⟨[]⟩, false, [], false, false, .raw 0, true, .raw 1, false⟩⟩
      [] "raw".toList ⟨[4]⟩).1 (by decide) (by decide)
  · exact (claim5_locateRead
      [⟨[3], fun _ _ => .found ⟨⟨[]⟩, false, [], false, false, .raw 0, true, .raw 1, false⟩⟩]
      ⟨[3], fun _ _ => .noLocation⟩ [] "raw".toList ⟨[]⟩).2.1
  · exact (claim5_locateRead
      [⟨[3], fun _ _ => .found ⟨⟨[]⟩, false, [], false, false, .raw 0, false, .raw 1, false⟩⟩]
      ⟨[3], fun _ _ => .noLocation⟩ [] "raw".toList ⟨[]⟩).2.2
      (by intro m hm; rw [List.mem_singleton.mp hm]; rfl)

/-- Errors surfaced by the modelled `Butler.get`. -/
inductive GetErr : Type where
  | noResults
  | runtimeError
deriving DecidableEq

/-- `Butler.get` (immediate mode): resolve the dataset-type alias, locate for
read, raise the distinct `NoResults` condition when no location is found; a
composite location recursively gets each component and assembles them; a
plain location reads through the bypass value (when the bypass was taken
during locate) or the storage read, wrapped in the standardization hook when
the mapper declares one.  `fuel` is a structural budget for the recursion
into composite components. -/
def get : Nat → AliasDict → List RepoNode → Str → DataIdM → Except GetErr ObjM
  | 0, _, _, _, _ => .error .runtimeError
  | fuel + 1, table, inputs, datasetType, dataId =>
    match resolveDatasetTypeAlias table datasetType with
    | .error _ => .error .runtimeError
    | .ok dt =>
      match locateRead inputs dt dataId with
      | none => .error .noResults
      | some loc =>
        if loc.isComposite then
          match loc.comps.mapM (fun c =>
              (get fuel table inputs c.2.datasetType loc.dataId).map
                (fun o => (c.1, o))) with
          | .error e => .error e
          | .ok objs => .ok (.assembled objs)
        else
          let obj := if loc.hasBypass && !loc.bypassRaises then loc.bypassResult
                     else loc.readResult
          if loc.canStd then .ok (.standardized obj) else .ok obj

/-- Counterexample to C1 as stated: one repository maps dataset type `comp`
to a composite location whose single component `c` has dataset type `cT`,
which no repository maps.  Locate finds a location for `comp`, yet `get`
raises `NoResults` (from the recursive component get). -/
def c1Node : RepoNode :=
  ⟨[], fun s _ =>
    if s = "comp".toList then
      .found ⟨⟨[]⟩, true, [("c".toList, ⟨"cT".toList⟩)], false, false,
        .raw 0, true, .raw 0, false⟩
    else .noLocation⟩

/-- The claim "if a location is found, `get` does not raise the no-such-
dataset condition" is false on the code: with `c1Node` as the only input,
`_locate` returns a (composite) location for `comp`, and `get` on `comp`
raises `NoResults`. -/
theorem claim1_counterexample :
    locateRead [c1Node] "comp".toList ⟨[]⟩ =
      some ⟨⟨[]⟩, true, [("c".toList, ⟨"cT".toList⟩)], false, false,
        .raw 0, true, .raw 0, false⟩
    ∧ get 2 [] [c1Node] "comp".toList ⟨[]⟩ = .error .noResults := by
  constructor
  · rfl
  · rfl

/-- **C1 (amended).** With the dataset type resolving through the alias
table: when locate returns no location, `get` raises exactly the distinct
`NoResults` condition (never a generic fault); and when locate returns a
*non-composite* location, `get` does not raise that condition.  (For a
composite location a recursive component get may still raise `NoResults`,
as the counterexample shows.) -/
theorem claim1_get (fuel : Nat) (table : AliasDict) (inputs : List RepoNode)
    (datasetType dt : Str) (dataId : DataIdM)
    (hres : resolveDatasetTypeAlias table datasetType = .ok dt) :
    (locateRead inputs dt dataId = none →
      get (fuel + 1) table inputs datasetType dataId = .error .noResults)
    ∧ (∀ loc, locateRead inputs dt dataId = some loc →
        loc.isComposite = false →
        get (fuel + 1) table inputs datasetType dataId ≠ .error .noResults) := by
  constructor
  · intro hloc
    simp only [get]
    rw [hres]
    dsimp only
    rw [hloc]
  · intro loc hloc hcomp
    simp only [get]
    rw [hres]
    dsimp only
    rw [hloc]
    dsimp only
    simp only [hcomp, Bool.false_eq_true, if_false]
    by_cases hstd : loc.canStd = true
    · rw [if_pos hstd]
      simp
    · rw [if_neg hstd]
      simp

/-- Witness for the amended C1 at concrete inputs: with no repository mapping
the dataset type, `get` raises `NoResults`; with a plain existing location it
returns the (standardizable) object rather than `NoResults`. -/
theorem claim1_witness :
    (get 1 [] [] "raw".toList ⟨[]⟩ = .error .noResults)
    ∧ (get 1 []
        [⟨[], fun _ _ => .found ⟨⟨[]⟩, false, [], false, false, .raw 0, true, .raw 7, false⟩⟩]
        "raw".toList ⟨[]⟩ ≠ .error .noResults) := by
  constructor
  · exact (claim1_get 0 [] [] "raw".toList "raw".toList ⟨[]⟩ rfl).1 rfl
  · exact (claim1_get 0 []
      [⟨[], fun _ _ => .found ⟨⟨[]⟩, false, [], false, false, .raw 0, true, .raw 7, false⟩⟩]
      "raw".toList "raw".toList ⟨[]⟩ rfl).2
      ⟨⟨[]⟩, false, [], false, false, .raw 0, true, .raw 7, false⟩ rfl rfl

/-! ## `Butler._addMissingParentsOfOutputs` (C9)

The function backfills input declarations for parents recorded in an existing
writable output's persisted configuration.  Python 2 semantics: `zip` returns
a list.  Two slips are embedded faithfully: the padding
`butlerParents.append([None for i in range(...)])` appends the whole
None-list as one element (`PPVal.junkNones`), and the paired index `ppIdx`
counts the effective parent list (which starts with the readable outputs) but
is used directly as an insertion index into `inputs`. -/

/-- An entry of the (possibly junk-padded) butler-parents list. -/
inductive PPVal : Type where
  | val (p : ParentVal)
  | junkNones (k : Nat)

/-- The `!=` comparison between a persisted parent and a butler-parent entry
(a parent value never equals the appended list of `None`s). -/
def eqPP : ParentVal → PPVal → Bool
  | p, .val q => p == q
  | _, .junkNones _ => false

/-- The butler-parents list of `makePairedParents`, with the buggy one-element
padding when the persisted list is longer. -/
def butlerParentsPadded (cfg : RepositoryCfg) (ofNode : Nat)
    (inputs outputs : List ArgsAndData) : List PPVal :=
  if cfg.parents.length > (getParents ofNode inputs outputs).length then
    (getParents ofNode inputs outputs).map PPVal.val
      ++ [PPVal.junkNones
            (cfg.parents.length - (getParents ofNode inputs outputs).length)]
  else (getParents ofNode inputs outputs).map PPVal.val

/-- `makePairedParents`: zip the persisted parents with the (padded) butler
parents (`zip` truncates to the shorter list). -/
def makePairedParents (cfg : RepositoryCfg) (ofNode : Nat)
    (inputs outputs : List ArgsAndData) : List (ParentVal × PPVal) :=
  cfg.parents.zip (butlerParentsPadded cfg ofNode inputs outputs)

/-- Outcome of the backfill: the updated inputs (with the next fresh node
id), a raised error, or a spent recursion budget — the latter models the
`while True` loop not terminating. -/
inductive AddMissingRes : Type where
  | ok (inputs : List ArgsAndData) (nextId : Nat)
  | err (e : String)
  | outOfFuel

/-- The `while True` loop of `_addMissingParentsOfOutputs` for one output:
compare the pair at `ppIdx`; on mismatch synthesize a read-only input
declaration for the persisted parent, resolve its configuration
(`_getCfgsForInputsAndOutputs` on the one new declaration), insert it into
`inputs` at `ppIdx`, and recompute the pairing; on match advance `ppIdx`.
The pairing is recomputed each iteration, which agrees with the source
(nothing changes on the advance branch).  A persisted parent given as an
embedded configuration record would be handed to the storage lookup as a
root, which fails outside this model. -/
def fixParentsLoop (store : Nat → Option RepositoryCfg)
    (outputs : List ArgsAndData) (out : ArgsAndData) :
    Nat → Nat → List ArgsAndData → Nat → AddMissingRes
  | 0, _, _, _ => .outOfFuel
  | fuel + 1, ppIdx, inputs, nextId =>
    if h : ppIdx < (makePairedParents out.repoData.cfg out.nodeId inputs outputs).length then
      let pp := (makePairedParents out.repoData.cfg out.nodeId inputs outputs)[ppIdx]
      if eqPP pp.1 pp.2 then
        fixParentsLoop store outputs out fuel (ppIdx + 1) inputs nextId
      else
        match pp.1 with
        | .byCfg _ => .err "unsupported embedded-cfg parent root"
        | .byRoot r =>
          match getCfgOne store ⟨r, "r".toList, none, none, none, []⟩ with
          | .error e => .err e
          | .ok rd =>
            fixParentsLoop store outputs out fuel ppIdx
              (inputs.insertIdx ppIdx ⟨nextId, ⟨r, "r".toList, none, none, none, []⟩, rd⟩)
              (nextId + 1)
    else .ok inputs nextId

/-- The outer loop of `_addMissingParentsOfOutputs`: process each output that
is readable and not newly created. -/
def addMissingGo (store : Nat → Option RepositoryCfg) (fuel : Nat)
    (outputs : List ArgsAndData) :
    List ArgsAndData → List ArgsAndData → Nat → AddMissingRes
  | [], inputs, nextId => .ok inputs nextId
  | out :: rest, inputs, nextId =>
    if 'r' ∉ out.repoArgs.mode then
      addMissingGo store fuel outputs rest inputs nextId
    else if out.repoData.cfgOrigin = .new then
      addMissingGo store fuel outputs rest inputs nextId
    else
      match fixParentsLoop store outputs out fuel 0 inputs nextId with
      | .ok inputs2 nextId2 => addMissingGo store fuel outputs rest inputs2 nextId2
      | .err e => .err e
      | .outOfFuel => .outOfFuel

/-- `Butler._addMissingParentsOfOutputs`. -/
def addMissingParentsOfOutputs (store : Nat → Option RepositoryCfg)
    (fuel : Nat) (inputs outputs : List ArgsAndData) (nextId : Nat) :
    AddMissingRes :=
  addMissingGo store fuel outputs outputs inputs nextId

/-- Persisted configurations of the C9 failing input: repositories `10` and
`20` are existing writable outputs, `20` was created with parent `30`, and
`30` exists. -/
def c9Store : Nat → Option RepositoryCfg := fun r =>
  if r = 10 then some (.mk 10 none none [])
  else if r = 20 then some (.mk 20 none none [.byRoot 30])
  else if r = 30 then some (.mk 30 none none [])
  else none

/-- First declared output: existing, readable-writable, no parents. -/
def c9Out1 : ArgsAndData :=
  ⟨0, ⟨10, "rw".toList, none, none, none, []⟩,
    ⟨.mk 10 none none [], .existing, some 10⟩⟩

/-- Second declared output: existing, readable-writable, persisted parent
`30` which the caller did not declare. -/
def c9Out2 : ArgsAndData :=
  ⟨1, ⟨20, "rw".toList, none, none, none, []⟩,
    ⟨.mk 20 none none [.byRoot 30], .existing, some 20⟩⟩

/-- On the failing input, whatever the current inputs are, the pairing for
the second output is always the single mismatching pair: its persisted
parent `30` against the first readable output's root `10` (the effective
parent list always starts with the other readable output, and `zip`
truncates to the one persisted parent). -/
lemma c9_paired (I : List ArgsAndData) :
    makePairedParents (.mk 20 none none [.byRoot 30]) 1 I [c9Out1, c9Out2]
      = [(ParentVal.byRoot 30, PPVal.val (ParentVal.byRoot 10))] := by
  have hfil : (([c9Out1, c9Out2] ++ I).filter
      (fun a => a.nodeId != 1 && decide ('r' ∈ a.repoArgs.mode))) =
      c9Out1 :: I.filter (fun a => a.nodeId != 1 && decide ('r' ∈ a.repoArgs.mode)) := by
    simp only [List.cons_append, List.nil_append, List.filter_cons]
    rw [if_pos (by decide), if_neg (by decide)]
  have hgp : getParents 1 I [c9Out1, c9Out2] =
      ParentVal.byRoot 10 ::
        (I.filter (fun a => a.nodeId != 1 && decide ('r' ∈ a.repoArgs.mode))).map
          (fun a => getParentVal a.repoData) := by
    unfold getParents
    rw [hfil]
    rfl
  unfold makePairedParents butlerParentsPadded
  rw [hgp]
  rw [show (RepositoryCfg.mk 20 none none [ParentVal.byRoot 30]).parents
      = [ParentVal.byRoot 30] from rfl]
  rw [if_neg (by simp only [List.length_cons, List.length_nil]; omega)]
  simp

/-- On the failing input, the backfill loop for the second output never
terminates: the mismatch at paired index `0` persists no matter how many
copies of the parent have been inserted at `inputs[0]`, because the paired
index counts the readable outputs while the insertion indexes only the
inputs. -/
lemma c9_loop_diverges :
    ∀ (fuel : Nat) (I : List ArgsAndData) (nid : Nat),
      fixParentsLoop c9Store [c9Out1, c9Out2] c9Out2 fuel 0 I nid = .outOfFuel := by
  intro fuel
  induction fuel with
  | zero => intro I nid; rfl
  | succ f ih =>
    intro I nid
    have heq : fixParentsLoop c9Store [c9Out1, c9Out2] c9Out2 (f + 1) 0 I nid
        = fixParentsLoop c9Store [c9Out1, c9Out2] c9Out2 f 0
            (I.insertIdx 0 ⟨nid, ⟨30, "r".toList, none, none, none, []⟩,
              ⟨.mk 30 none none [], .existing, some 30⟩⟩) (nid + 1) := by
      simp only [fixParentsLoop]
      rw [show c9Out2.repoData.cfg = RepositoryCfg.mk 20 none none [.byRoot 30] from rfl,
        show c9Out2.nodeId = 1 from rfl, c9_paired I]
      rfl
    rw [heq]
    exact ih _ _

/-- **C9 (divergence at the failing input).** The claim asserts graph
construction succeeds by backfilling missing persisted parents.  On the
failing input — two existing readable outputs, the second persisted with a
parent the caller did not declare — `_addMissingParentsOfOutputs` never
terminates, for every recursion budget: the code is a slip (paired index vs
inputs index), so construction never reaches the claimed success. -/
theorem claim9_addMissingParentsOfOutputs_diverges :
    ∀ (fuel nid : Nat),
      addMissingParentsOfOutputs c9Store fuel [] [c9Out1, c9Out2] nid
        = .outOfFuel := by
  intro fuel nid
  cases fuel with
  | zero => rfl
  | succ f =>
    show (match fixParentsLoop c9Store [c9Out1, c9Out2] c9Out2 (f + 1) 0 [] nid with
          | .ok inputs2 nextId2 =>
              addMissingGo c9Store (f + 1) [c9Out1, c9Out2] [] inputs2 nextId2
          | .err e => .err e
          | .outOfFuel => .outOfFuel) = .outOfFuel
    rw [c9_loop_diverges (f + 1) [] nid]

end DafButler
